import Mathlib

/-!
# Verification of the dataZen data-quality pipeline

A shallow embedding of the cleaning and analysis core of the dataZen
repository (`src/utils/fileProcessor.ts` second part: `DataCleaner`;
`src/utils/exportService.ts` second part: `DataAnalyzer`), together with
theorems settling the specification claims.

Cell values (TypeScript `any`) are modelled by the `Cell` type below.
JavaScript numbers are modelled by exact rationals, with `none` standing
for `NaN`; the non-finite values `Infinity`/`-Infinity` and floating-point
rounding are outside the model (all arithmetic is exact), which is noted
at each definition where it matters.
-/

/-- A JavaScript number: `none` models `NaN`, `some q` a finite number
(modelled exactly as a rational; IEEE-754 rounding is not modelled). -/
abbrev JsNum := Option ℚ

/-- A cell value of the dynamically typed table
(`any` in `src/types.ts`): `null`, `undefined`, a string, a number or a
boolean. -/
inductive Cell where
  | null : Cell
  | undef : Cell
  | str : String → Cell
  | num : JsNum → Cell
  | bool : Bool → Cell
deriving DecidableEq, Repr

/-- JavaScript strict inequality `!==` on cells. It agrees with structural
inequality except that `NaN !== NaN` is `true`. -/
def jsStrictNeq (a b : Cell) : Bool :=
  match a, b with
  | Cell.num none, Cell.num none => true
  | a, b => decide (a ≠ b)

/-- The whitespace characters recognised by `String.prototype.trim`
(restricted to the ASCII ones; JS also trims some Unicode space
characters, which do not occur in the claims). -/
def isWsChar (c : Char) : Bool :=
  c = ' ' ∨ c = '\t' ∨ c = '\n' ∨ c = '\r' ∨ c = '\x0b' ∨ c = '\x0c'

/-- Trimming on character lists: drop leading and trailing whitespace. -/
def jsTrimList (l : List Char) : List Char :=
  ((l.dropWhile isWsChar).reverse.dropWhile isWsChar).reverse

/-- JavaScript `String.prototype.trim`. -/
def jsTrim (s : String) : String :=
  ⟨jsTrimList s.data⟩

/-- ASCII lower-casing of one character (JS `toLowerCase` restricted to
ASCII letters, the only ones appearing in the column-name keywords). -/
def lowerChar (c : Char) : Char :=
  if 'A' ≤ c ∧ c ≤ 'Z' then Char.ofNat (c.toNat + 32) else c

/-- JavaScript `String.prototype.toLowerCase` (ASCII). -/
def jsToLower (s : String) : String :=
  ⟨s.data.map lowerChar⟩

/-- `DataCleaner.isMissing` (fileProcessor.ts:384-387):
`value === null || value === undefined || value === '' ||
(typeof value === 'string' && value.trim() === '')`.
The `=== ''` disjunct is subsumed by the trimmed-string test. -/
def isMissing (v : Cell) : Bool :=
  match v with
  | Cell.null => true
  | Cell.undef => true
  | Cell.str s => jsTrim s == ""
  | Cell.num _ => false
  | Cell.bool _ => false

example : isMissing (Cell.str "") = true := by decide
example : isMissing (Cell.str "  ") = true := by decide
example : isMissing (Cell.str "0") = false := by decide
example : isMissing (Cell.num (some 0)) = false := by decide

/-- Numeric value of one decimal digit character. -/
def digitVal (c : Char) : ℕ := c.toNat - 48

@[simp] theorem digitVal_c0 : digitVal '0' = 0 := by decide
@[simp] theorem digitVal_c1 : digitVal '1' = 1 := by decide
@[simp] theorem digitVal_c2 : digitVal '2' = 2 := by decide
@[simp] theorem digitVal_c3 : digitVal '3' = 3 := by decide
@[simp] theorem digitVal_c4 : digitVal '4' = 4 := by decide
@[simp] theorem digitVal_c5 : digitVal '5' = 5 := by decide
@[simp] theorem digitVal_c6 : digitVal '6' = 6 := by decide
@[simp] theorem digitVal_c7 : digitVal '7' = 7 := by decide
@[simp] theorem digitVal_c8 : digitVal '8' = 8 := by decide
@[simp] theorem digitVal_c9 : digitVal '9' = 9 := by decide

/-- Value of a string of decimal digit characters, most significant first. -/
def digitsToNat (ds : List Char) : ℕ :=
  ds.foldl (fun n c => 10 * n + digitVal c) 0

/-- Consume an optional leading sign; returns whether it was `-`. -/
def jsSign : List Char → Bool × List Char
  | '-' :: r => (true, r)
  | '+' :: r => (false, r)
  | l => (false, l)

/-- Full-string numeric-literal parse used by JavaScript `Number(string)`
after trimming: optional sign, digits with optional fraction, optional
exponent; the whole string must be consumed. The hexadecimal/octal/binary
forms and `Infinity` (non-finite) are outside the model and map to `none`. -/
def strToNumCore (l : List Char) : Option ℚ :=
  let (neg, l1) := jsSign l
  let intDs := l1.takeWhile Char.isDigit
  let l2 := l1.dropWhile Char.isDigit
  let (fracDs, l3) :=
    match l2 with
    | '.' :: r => (r.takeWhile Char.isDigit, r.dropWhile Char.isDigit)
    | _ => ([], l2)
  if intDs.isEmpty && fracDs.isEmpty then none
  else
    let mant : ℚ := (digitsToNat (intDs ++ fracDs) : ℚ) / (10 : ℚ) ^ fracDs.length
    let signed : ℚ := if neg then -mant else mant
    match l3 with
    | [] => some signed
    | e :: r =>
      if e = 'e' ∨ e = 'E' then
        let (eneg, r1) := jsSign r
        let eDs := r1.takeWhile Char.isDigit
        let r2 := r1.dropWhile Char.isDigit
        if eDs.isEmpty || !r2.isEmpty then none
        else some (signed * (10 : ℚ) ^ (if eneg then -(digitsToNat eDs : ℤ) else (digitsToNat eDs : ℤ)))
      else none

/-- JavaScript `Number(string)`: a trimmed-empty string coerces to `0`,
otherwise the full string must be a numeric literal. -/
def strToNum (s : String) : Option ℚ :=
  let t := jsTrimList s.data
  if t.isEmpty then some 0 else strToNumCore t

/-- JavaScript `Number(value)` for the cell variants: `null → 0`,
`undefined → NaN`, booleans to 0/1, numbers unchanged, strings via
`strToNum`. -/
def jsToNum (v : Cell) : JsNum :=
  match v with
  | Cell.null => some 0
  | Cell.undef => none
  | Cell.str s => strToNum s
  | Cell.num x => x
  | Cell.bool b => some (if b then 1 else 0)

/-- JavaScript `parseFloat`: skip leading whitespace, optional sign,
longest numeric prefix (digits, optional fraction, optional well-formed
exponent); `none` (NaN) when no digit is found. Trailing characters are
ignored. -/
def jsParseFloat (s : String) : Option ℚ :=
  let l := s.data.dropWhile isWsChar
  let (neg, l1) := jsSign l
  let intDs := l1.takeWhile Char.isDigit
  let l2 := l1.dropWhile Char.isDigit
  let (fracDs, l3) :=
    match l2 with
    | '.' :: r => (r.takeWhile Char.isDigit, r.dropWhile Char.isDigit)
    | _ => ([], l2)
  if intDs.isEmpty && fracDs.isEmpty then none
  else
    let mant : ℚ := (digitsToNat (intDs ++ fracDs) : ℚ) / (10 : ℚ) ^ fracDs.length
    let signed : ℚ := if neg then -mant else mant
    match l3 with
    | e :: r =>
      if e = 'e' ∨ e = 'E' then
        let (eneg, r1) := jsSign r
        let eDs := r1.takeWhile Char.isDigit
        if eDs.isEmpty then some signed
        else some (signed * (10 : ℚ) ^ (if eneg then -(digitsToNat eDs : ℤ) else (digitsToNat eDs : ℤ)))
      else some signed
    | [] => some signed

/-- JavaScript `parseInt` with no radix argument: skip leading whitespace,
optional sign, leading decimal digits only; `none` (NaN) when no digit is
found. (Automatic hexadecimal detection for a `0x` prefix is outside the
model.) -/
def jsParseIntStr (s : String) : Option ℤ :=
  let l := s.data.dropWhile isWsChar
  let (neg, l1) := jsSign l
  let ds := l1.takeWhile Char.isDigit
  if ds.isEmpty then none
  else some (if neg then -(digitsToNat ds : ℤ) else (digitsToNat ds : ℤ))

/-- Truncation of a rational toward zero (the integer part JavaScript
`parseInt` reads off a plain decimal rendering). -/
def ratTrunc (q : ℚ) : ℤ :=
  if 0 ≤ q then ⌊q⌋ else ⌈q⌉

/-- Decimal digit characters of a natural number, most significant first. -/
def natDigitChars (n : ℕ) : List Char :=
  if n = 0 then ['0'] else (Nat.digits 10 n).reverse.map (fun d => Char.ofNat (48 + d))

/-- At most `fuel` decimal digits of a fractional part `r ∈ [0,1)`. -/
def fracDigitChars : ℚ → ℕ → List Char
  | _, 0 => []
  | r, fuel + 1 =>
    if r = 0 then []
    else
      let d := ⌊r * 10⌋.toNat
      Char.ofNat (48 + d) :: fracDigitChars (r * 10 - ⌊r * 10⌋) fuel

/-- `String(n)` for a finite JavaScript number, modelled as a plain decimal
rendering with at most 17 fractional digits. (JavaScript prints the
shortest round-tripping decimal and switches to exponential notation
outside `[1e-6, 1e21)`; the properties the proofs use — the result is
non-empty and consists only of digit, sign, dot and exponent characters,
so it is never whitespace-only and never a missing-value sentinel — hold
for either form.) -/
def numToString (q : ℚ) : String :=
  let frCh := fracDigitChars (|q| - ⌊|q|⌋) 17
  ⟨(if q < 0 then ['-'] else []) ++ natDigitChars ⌊|q|⌋.toNat ++
   (if frCh.isEmpty then [] else '.' :: frCh)⟩

/-- JavaScript `String(value)` for the cell variants. -/
def jsToString (v : Cell) : String :=
  match v with
  | Cell.null => "null"
  | Cell.undef => "undefined"
  | Cell.str s => s
  | Cell.num none => "NaN"
  | Cell.num (some q) => numToString q
  | Cell.bool b => if b then "true" else "false"

example : strToNum "  " = some 0 := by norm_num +decide [strToNum, jsTrimList]
example : strToNum "10" = some 10 := by
  norm_num +decide [strToNum, strToNumCore, jsTrimList, jsSign, digitsToNat]
example : strToNum "-5" = some (-5) := by
  norm_num +decide [strToNum, strToNumCore, jsTrimList, jsSign, digitsToNat]
example : strToNum "n/a" = none := by
  norm_num +decide [strToNum, strToNumCore, jsTrimList, jsSign, digitsToNat]
example : strToNum "1.5e2" = some 150 := by
  norm_num +decide [strToNum, strToNumCore, jsTrimList, jsSign, digitsToNat]
example : jsParseFloat "10" = some 10 := by
  norm_num +decide [jsParseFloat, jsSign, digitsToNat]
example : jsParseFloat "-5" = some (-5) := by
  norm_num +decide [jsParseFloat, jsSign, digitsToNat]

/-- The sentinel tokens `DataCleaner.fixErroneousValues` replaces with
`null` (fileProcessor.ts:248). -/
def sentinelList : List String :=
  ["n/a", "na", "unknown", "null", "none", "-", "--", "?", "missing"]

/-- The sentinel test `['n/a', …].includes(String(value).toLowerCase().trim())`. -/
def sentinelCheck (v : Cell) : Bool :=
  sentinelList.contains (jsTrim (jsToLower (jsToString v)))

/-- `columnName.includes(keyword)`: substring containment on strings. -/
def containsSub (s sub : String) : Bool :=
  s.data.tails.any (fun t => sub.data.isPrefixOf t)

/-- `DataCleaner.isPriceColumn` keyword list (fileProcessor.ts:390). -/
def priceKeywords : List String :=
  ["price", "cost", "amount", "value", "fee", "charge", "rate", "salary", "wage", "revenue", "income"]

/-- `DataCleaner.isQuantityColumn` keyword list (fileProcessor.ts:395). -/
def quantityKeywords : List String :=
  ["quantity", "count", "number", "qty", "amount", "total", "sum", "volume", "size", "length", "width", "height"]

/-- `DataCleaner.isDateColumn` keyword list (fileProcessor.ts:400). -/
def dateKeywords : List String :=
  ["date", "time", "created", "updated", "modified", "timestamp", "year", "month", "day"]

/-- `DataCleaner.isPriceColumn` on an already lower-cased column name. -/
def isPriceColumn (columnName : String) : Bool :=
  priceKeywords.any (fun k => containsSub columnName k)

/-- `DataCleaner.isQuantityColumn` on an already lower-cased column name. -/
def isQuantityColumn (columnName : String) : Bool :=
  quantityKeywords.any (fun k => containsSub columnName k)

/-- `DataCleaner.isDateColumn` on an already lower-cased column name. -/
def isDateColumn (columnName : String) : Bool :=
  dateKeywords.any (fun k => containsSub columnName k)

/-- `DataCleaner.isPriceOrQuantityColumn` (fileProcessor.ts:404-409): more
than 80% of the numeric-coercible, non-null/non-undefined/non-`''` values
are `≥ 0`. For an empty numeric set JavaScript compares `NaN > 0.8`,
which is false, matching `0 > 0` here. -/
def isPriceOrQuantityColumn (values : List Cell) : Bool :=
  let numericValues := values.filter (fun v =>
    (jsToNum v).isSome && !(v == Cell.null) && !(v == Cell.undef) && !(v == Cell.str ""))
  let positiveValues := numericValues.filter (fun v => decide (0 ≤ (jsToNum v).getD 0))
  5 * positiveValues.length > 4 * numericValues.length

/-- The per-value body of `DataCleaner.fixErroneousValues`
(fileProcessor.ts:242-263): missing values pass through; sentinel tokens
become `null` (counted); on a numerical column that passes the
price/quantity heuristic a negative numeric value is replaced by its
absolute value (counted); everything else passes through. The returned
flag says whether the value was counted as fixed. -/
def fixValue (flipOk : Bool) (columnType : String) (v : Cell) : Cell × Bool :=
  if isMissing v then (v, false)
  else if sentinelCheck v then (Cell.null, true)
  else if columnType = "numerical" ∧ flipOk then
    match jsToNum v with
    | some q => if q < 0 then (Cell.num (some (-q)), true) else (v, false)
    | none => (v, false)
  else (v, false)

/-- `DataCleaner.fixErroneousValues` (fileProcessor.ts:240-266). The
price/quantity heuristic is evaluated on the original `values` array
(the closure argument), identical at every element. -/
def fixErroneousValues (values : List Cell) (columnType : String) : List Cell × ℕ :=
  let flipOk := isPriceOrQuantityColumn values
  let fixed := values.map (fixValue flipOk columnType)
  (fixed.map Prod.fst, fixed.countP Prod.snd)

/-- The per-value body of `DataCleaner.convertToFloat`
(fileProcessor.ts:284-291): `parseFloat(String(value).replace(/[,$€£¥]/g,
'').trim())`, `null` when the result is NaN. For a finite number
`parseFloat(String(n)) = n` (JavaScript prints the shortest round-tripping
decimal), for `NaN`, booleans, `null` and `undefined` the rendered strings
parse to NaN. -/
def convertFloatVal (v : Cell) : Cell :=
  if isMissing v then v
  else match v with
  | Cell.str s =>
    match jsParseFloat (jsTrim ⟨s.data.filter (fun c => !(c ∈ [',', '$', '€', '£', '¥']))⟩) with
    | some q => Cell.num (some q)
    | none => Cell.null
  | Cell.num (some q) => Cell.num (some q)
  | _ => Cell.null

/-- The per-value body of `DataCleaner.convertToInteger`
(fileProcessor.ts:296-305): `parseInt(String(value).replace(/[,]/g, ''))`,
`null` when NaN. For a finite number this truncates toward zero (exact for
`|n| ∈ [1e-6, 1e21)` where `String` prints a plain decimal; in the
exponential-notation regime `parseInt` reads only the mantissa's leading
digits — still a number, and no claim depends on those values). -/
def convertIntVal (v : Cell) : Cell :=
  if isMissing v then v
  else match v with
  | Cell.str s =>
    match jsParseIntStr ⟨s.data.filter (fun c => !(c = ','))⟩ with
    | some z => Cell.num (some (z : ℚ))
    | none => Cell.null
  | Cell.num (some q) => Cell.num (some ((ratTrunc q : ℤ) : ℚ))
  | _ => Cell.null

/-- Is `s` exactly an ISO `YYYY-MM-DD` date string (month 01–12,
day 01–31)? -/
def isIsoDate (s : String) : Bool :=
  match s.data with
  | [y1, y2, y3, y4, '-', m1, m2, '-', d1, d2] =>
    [y1, y2, y3, y4, m1, m2, d1, d2].all Char.isDigit &&
    decide (1 ≤ 10 * digitVal m1 + digitVal m2) && decide (10 * digitVal m1 + digitVal m2 ≤ 12) &&
    decide (1 ≤ 10 * digitVal d1 + digitVal d2) && decide (10 * digitVal d1 + digitVal d2 ≤ 31)
  | _ => false

/-- The per-value body of `DataCleaner.convertToDate`
(fileProcessor.ts:308-313): `new Date(value)` then
`toISOString().split('T')[0]`, `null` when invalid. Date-string parsing is
engine-dependent; the model accepts exactly ISO `YYYY-MM-DD` strings
(which round-trip to themselves: they are parsed as UTC midnight) and
treats every other value, including numeric timestamps, as unparseable.
Calendar fine-structure (31-day months, leap years) is not modelled. -/
def convertDateVal (v : Cell) : Cell :=
  if isMissing v then v
  else match v with
  | Cell.str s => if isIsoDate s then Cell.str s else Cell.null
  | _ => Cell.null

/-- A column of the table (`DataColumn` in src/types.ts). The `type` field
holds one of the strings `numerical`, `categorical`, `date`, `text`. -/
structure DataColumn where
  name : String
  type : String
  values : List Cell
  missingCount : ℕ
  missingRate : ℚ
deriving DecidableEq, Repr

/-- The table (`DataSummary` in src/types.ts). -/
structure DataSummary where
  totalRows : ℕ
  totalColumns : ℕ
  columns : List DataColumn
  fileName : String
deriving DecidableEq, Repr

/-- `ColumnCleaningReport` (dataCleaner part of fileProcessor.ts:131-139). -/
structure ColumnCleaningReport where
  columnName : String
  originalType : String
  finalType : String
  missingValuesImputed : ℕ
  erroneousValuesFixed : ℕ
  typeConverted : Bool
  imputationMethod : Option String
deriving DecidableEq, Repr

/-- The `summary` part of `CleaningReport`. -/
structure CleaningSummary where
  missingValuesImputed : ℕ
  erroneousValuesFixed : ℕ
  typesConverted : ℕ
deriving DecidableEq, Repr

/-- `CleaningReport` (dataCleaner part of fileProcessor.ts:121-129). -/
structure CleaningReport where
  totalRowsCleaned : ℕ
  columnReports : List ColumnCleaningReport
  summary : CleaningSummary
deriving DecidableEq, Repr

/-- `DataCleaner.convertTypes` (fileProcessor.ts:268-281): route on the
lower-cased column name — price first, then quantity, then date (also
taken when the recorded type is `date`) — or leave the values unchanged. -/
def convertTypes (values : List Cell) (column : DataColumn) : List Cell × String × Bool :=
  let columnName := jsToLower column.name
  if isPriceColumn columnName then (values.map convertFloatVal, "numerical", true)
  else if isQuantityColumn columnName then (values.map convertIntVal, "numerical", true)
  else if isDateColumn columnName ∨ column.type = "date" then (values.map convertDateVal, "date", true)
  else (values, column.type, false)

/-- Insert into a sorted list according to a boolean comparison. -/
def insertLe (le : α → α → Bool) (x : α) : List α → List α
  | [] => [x]
  | y :: ys => if le x y then x :: y :: ys else y :: insertLe le x ys

/-- Insertion sort. Models `Array.prototype.sort((a, b) => a - b)`: on a
NaN-free numeric list this is the ascending reordering; if `NaN` is
present the JavaScript comparator contract is violated and the engine's
order is unspecified, so the model fixes one order (`NaN` compares low) —
no claim depends on the placement of `NaN`. -/
def sortBy (le : α → α → Bool) (l : List α) : List α :=
  l.foldr (insertLe le) []

/-- Comparison used for sorting JavaScript numbers. -/
def leJs : JsNum → JsNum → Bool
  | none, _ => true
  | _, none => true
  | some a, some b => decide (a ≤ b)

/-- JavaScript `+` on numbers (NaN-propagating; `undefined` operands from
out-of-range indexing also give NaN, which `Option.getD _ none` models). -/
def addJs : JsNum → JsNum → JsNum
  | some a, some b => some (a + b)
  | _, _ => none

/-- JavaScript `/ 2` on a number. -/
def halfJs : JsNum → JsNum
  | some a => some (a / 2)
  | none => none

/-- The median computation of the `numerical` branch of
`DataCleaner.imputeMissingValues` (fileProcessor.ts:332-335), on the
already sorted list. -/
def medianJsOfSorted (s : List JsNum) : JsNum :=
  if s.length % 2 = 0 then halfJs (addJs (s.getD (s.length / 2 - 1) none) (s.getD (s.length / 2) none))
  else s.getD (s.length / 2) none

/-- One `frequency.set(k, (frequency.get(k) || 0) + 1)` step on the
insertion-ordered association list modelling a JavaScript `Map`. -/
def upsert [DecidableEq α] : List (α × ℕ) → α → List (α × ℕ)
  | [], k => [(k, 1)]
  | (a, n) :: t, k => if a = k then (a, n + 1) :: t else (a, n) :: upsert t k

/-- The frequency `Map` accumulated by `imputeMissingValues`: entries in
first-insertion order, counts updated in place (JavaScript `Map`
iteration order). -/
def freqList [DecidableEq α] (values : List α) : List (α × ℕ) :=
  values.foldl upsert []

/-- `Array.from(m.entries()).reduce((a, b) => a[1] > b[1] ? a : b)`:
keep the accumulator only when its count is strictly greater, so on a tie
the later entry wins. `none` on an empty list (where `reduce` throws). -/
def reduceMax : List (α × ℕ) → Option (α × ℕ)
  | [] => none
  | h :: t => some (t.foldl (fun a b => if a.2 > b.2 then a else b) h)

/-- `DataCleaner.imputeMissingValues` (fileProcessor.ts:318-382). Returns
the new values, the number of cells filled and the method string. -/
def imputeMissingValues (values : List Cell) (columnType : String) : List Cell × ℕ × String :=
  let nonMissingValues := values.filter (fun v => !isMissing v)
  if nonMissingValues.isEmpty then (values, 0, "no_imputation_possible")
  else
    let p : Cell × String :=
      match columnType with
      | "numerical" =>
        let sortedValues := sortBy leJs (nonMissingValues.map jsToNum)
        (Cell.num (medianJsOfSorted sortedValues), "median")
      | "categorical" =>
        (((reduceMax (freqList nonMissingValues)).map Prod.fst).getD Cell.null, "mode")
      | "date" =>
        (Cell.str (((reduceMax (freqList (nonMissingValues.map jsToString))).map Prod.fst).getD ""),
         "most_frequent_date")
      | _ =>
        (Cell.str (((reduceMax (freqList (nonMissingValues.map jsToString))).map Prod.fst).getD ""),
         "most_frequent_text")
    (values.map (fun v => if isMissing v then p.1 else v), values.countP isMissing, p.2)

/-- `DataCleaner.cleanColumn` (fileProcessor.ts:194-238): fix erroneous
values, convert types, impute, then recompute the missing statistics.
`missingRate` is `missingCount / totalRows` (exact rational; for
`totalRows = 0` JavaScript would produce NaN, modelled as the rational 0 —
never reached from `cleanData` on a well-formed table). -/
def cleanColumn (column : DataColumn) (totalRows : ℕ) : DataColumn × ColumnCleaningReport :=
  let fixed := fixErroneousValues column.values column.type
  let conv := convertTypes fixed.1 column
  let finalType := if conv.2.2 then conv.2.1 else column.type
  let imp := imputeMissingValues conv.1 finalType
  let newMissingCount := imp.1.countP isMissing
  ({ column with
      type := finalType
      values := imp.1
      missingCount := newMissingCount
      missingRate := (newMissingCount : ℚ) / (totalRows : ℚ) },
   { columnName := column.name
     originalType := column.type
     finalType := finalType
     missingValuesImputed := imp.2.1
     erroneousValuesFixed := fixed.2
     typeConverted := conv.2.2
     imputationMethod := some imp.2.2 })

/-- One column's pass of the row-modification marking loop of
`DataCleaner.cleanData` (fileProcessor.ts:163-168): set the flag at every
index where the cleaned value is `!==` the original one. Out-of-range
reads yield `undefined`; an out-of-range `set` is dropped (JavaScript
would extend the flag array — only reachable on non-rectangular input). -/
def markRow (flags : List Cell) (cleaned orig : List Cell) : List Cell :=
  (List.range cleaned.length).foldl
    (fun fl i => if jsStrictNeq (cleaned.getD i Cell.undef) (orig.getD i Cell.undef)
                 then fl.set i (Cell.bool true) else fl) flags

/-- The indices a column contributes to the `rowsModified` set. -/
def diffIdxSet (cleaned orig : List Cell) : Finset ℕ :=
  (Finset.range cleaned.length).filter
    (fun i => jsStrictNeq (cleaned.getD i Cell.undef) (orig.getD i Cell.undef))

/-- `DataCleaner.cleanData` (fileProcessor.ts:142-192): clean every
column, append the boolean flag column `nettoyage_effectue`, and build the
report. -/
def cleanData (data : DataSummary) : DataSummary × CleaningReport :=
  let cleanedPairs := data.columns.map (fun c => cleanColumn c data.totalRows)
  let cleanedColumns := cleanedPairs.map Prod.fst
  let columnReports := cleanedPairs.map Prod.snd
  let valuePairs := List.zip (cleanedColumns.map DataColumn.values) (data.columns.map DataColumn.values)
  let flagValues := valuePairs.foldl (fun fl p => markRow fl p.1 p.2)
    (List.replicate data.totalRows (Cell.bool false))
  let rowsModified : Finset ℕ := valuePairs.foldl (fun s p => s ∪ diffIdxSet p.1 p.2) ∅
  let cleaningFlagColumn : DataColumn :=
    { name := "nettoyage_effectue"
      type := "categorical"
      values := flagValues
      missingCount := 0
      missingRate := 0 }
  ({ data with
      totalColumns := data.totalColumns + 1
      columns := cleanedColumns ++ [cleaningFlagColumn] },
   { totalRowsCleaned := rowsModified.card
     columnReports := columnReports
     summary :=
     { missingValuesImputed := (columnReports.map ColumnCleaningReport.missingValuesImputed).sum
       erroneousValuesFixed := (columnReports.map ColumnCleaningReport.erroneousValuesFixed).sum
       typesConverted := (columnReports.filter ColumnCleaningReport.typeConverted).length } })

/-- `Number(x.toFixed(2))`: round to 2 decimal places, ties away from zero
for positives and toward the larger candidate in general (ECMA `toFixed`
picks the larger `n` on a tie), i.e. half-up. -/
def round2 (q : ℚ) : ℚ :=
  (⌊q * 100 + 1 / 2⌋ : ℚ) / 100

/-- The numeric values a numerical column contributes to
`DataAnalyzer.calculateNumericalStats` (exportService.ts:321-323):
`values.filter(v => !isNaN(Number(v)) && v !== null && v !== undefined &&
v !== '').map(v => Number(v))`. Note that a whitespace-only string passes
this filter and contributes the number 0. -/
def numericCoercibleValues (values : List Cell) : List ℚ :=
  values.filterMap (fun v =>
    if v == Cell.null || v == Cell.undef || v == Cell.str "" then none else jsToNum v)

/-- `DataAnalyzer.calculateMedian` (exportService.ts:357-362) on an
already sorted list. -/
def calculateMedian (sortedValues : List ℚ) : ℚ :=
  let mid := sortedValues.length / 2
  if sortedValues.length % 2 = 0 then (sortedValues.getD (mid - 1) 0 + sortedValues.getD mid 0) / 2
  else sortedValues.getD mid 0

/-- `DataAnalyzer.calculatePercentile` (exportService.ts:364-373):
linear-interpolation percentile with `index = p/100 * (n-1)`. -/
def calculatePercentile (sortedValues : List ℚ) (percentile : ℚ) : ℚ :=
  let index := percentile / 100 * ((sortedValues.length : ℚ) - 1)
  let lower := ⌊index⌋
  let upper := ⌈index⌉
  if lower = upper then sortedValues.getD lower.toNat 0
  else
    let weight := index - (lower : ℚ)
    sortedValues.getD lower.toNat 0 * (1 - weight) + sortedValues.getD upper.toNat 0 * weight

/-- `NumericalStats` (src/types.ts). The source field `std` is
`Math.sqrt(variance)` rounded to 2 decimals; a square root is not a
rational, so the model records the unrounded variance in `stdSq`
(the square of the unrounded source `std`; in particular `std = 0` in the
source iff `stdSq = 0` here, which is all the claims use). -/
structure NumericalStats where
  mean : ℚ
  median : ℚ
  stdSq : ℚ
  min : ℚ
  max : ℚ
  q1 : ℚ
  q3 : ℚ
  outliers : List ℚ
deriving DecidableEq, Repr

/-- `DataAnalyzer.calculateNumericalStats` (exportService.ts:320-355).
Empty numeric set gives the all-zero object; otherwise mean, median,
variance, unrounded min/max from the sorted list, interpolated rounded
quartiles and the unrounded-IQR outliers. -/
def calculateNumericalStats (values : List Cell) : NumericalStats :=
  let numericValues := numericCoercibleValues values
  if numericValues.isEmpty then
    { mean := 0, median := 0, stdSq := 0, min := 0, max := 0, q1 := 0, q3 := 0, outliers := [] }
  else
    let sorted := sortBy (fun a b => decide (a ≤ b)) numericValues
    let mean := numericValues.sum / (numericValues.length : ℚ)
    let median := calculateMedian sorted
    let stdSq := (numericValues.map (fun val => (val - mean) ^ 2)).sum / (numericValues.length : ℚ)
    let q1 := calculatePercentile sorted 25
    let q3 := calculatePercentile sorted 75
    let iqr := q3 - q1
    let outliers := numericValues.filter (fun val =>
      decide (val < q1 - 3 / 2 * iqr) || decide (q3 + 3 / 2 * iqr < val))
    { mean := round2 mean
      median := round2 median
      stdSq := stdSq
      min := sorted.getD 0 0
      max := sorted.getD (sorted.length - 1) 0
      q1 := round2 q1
      q3 := round2 q3
      outliers := outliers }

/-- JavaScript indexing `l[i]`: `undefined` out of range. -/
def jsAt (l : List Cell) (i : ℕ) : Cell :=
  l.getD i Cell.undef

/-- The pair list of `DataAnalyzer.calculatePearsonCorrelation`
(exportService.ts:419-420): `x.map((val, i) => [Number(val), Number(y[i])])
.filter(([a, b]) => !isNaN(a) && !isNaN(b))`. Note that `null` and
empty/whitespace-only strings coerce to 0 and are kept. -/
def pearsonPairs (x y : List Cell) : List (ℚ × ℚ) :=
  (List.range x.length).filterMap (fun i =>
    match jsToNum (jsAt x i), jsToNum (jsAt y i) with
    | some a, some b => some (a, b)
    | _, _ => none)

/-- The value of one correlation coefficient. `zero` and `one` are the
literal constants the source returns/assigns; `coeff n numer denomSq`
denotes `Number((numer / Math.sqrt(denomSq)).toFixed(3))` with
`denomSq > 0` — the square root is kept symbolic since it is not a
rational. Two equal `CorrVal`s denote equal JavaScript numbers. -/
inductive CorrVal where
  | zero : CorrVal
  | one : CorrVal
  | coeff : ℕ → ℚ → ℚ → CorrVal
deriving DecidableEq, Repr

/-- `DataAnalyzer.calculatePearsonCorrelation` (exportService.ts:418-436).
Fewer than 2 usable pairs gives 0. The source tests
`Math.sqrt(denomSq) === 0`; both factors of `denomSq` are `≥ 0`
(Cauchy–Schwarz) so in exact arithmetic this is `denomSq = 0`. -/
def calculatePearsonCorrelation (x y : List Cell) : CorrVal :=
  let pairs := pearsonPairs x y
  if pairs.length < 2 then CorrVal.zero
  else
    let n : ℚ := (pairs.length : ℚ)
    let sumX := (pairs.map Prod.fst).sum
    let sumY := (pairs.map Prod.snd).sum
    let sumXY := (pairs.map (fun p => p.1 * p.2)).sum
    let sumX2 := (pairs.map (fun p => p.1 * p.1)).sum
    let sumY2 := (pairs.map (fun p => p.2 * p.2)).sum
    let numerator := n * sumXY - sumX * sumY
    let denomSq := (n * sumX2 - sumX * sumX) * (n * sumY2 - sumY * sumY)
    if denomSq = 0 then CorrVal.zero
    else CorrVal.coeff pairs.length numerator denomSq

/-- Assignment `obj[k] = v` on the JavaScript object modelled as a partial
map: the last write wins. -/
def objUpd (m : String → Option α) (k : String) (v : α) : String → Option α :=
  fun k2 => if k2 = k then some v else m k2

/-- The numerical-column selection of `DataAnalyzer.calculateCorrelations`
(exportService.ts:400). -/
def numericalColumnsOf (data : DataSummary) : List DataColumn :=
  data.columns.filter (fun c => c.type == "numerical")

/-- `DataAnalyzer.calculateCorrelations` (exportService.ts:399-416): for
each numerical column a fresh row object is assigned, then filled with 1
on the diagonal (name equality) and the Pearson coefficient elsewhere. -/
def calculateCorrelations (data : DataSummary) : String → Option (String → Option CorrVal) :=
  let numericalColumns := numericalColumnsOf data
  numericalColumns.foldl
    (fun acc col1 =>
      objUpd acc col1.name
        (numericalColumns.foldl
          (fun row col2 =>
            objUpd row col2.name
              (if col1.name = col2.name then CorrVal.one
               else calculatePearsonCorrelation col1.values col2.values))
          (fun _ => none)))
    (fun _ => none)

/-- `correlations[k1][k2]` (undefined-propagating). -/
def corrLookup (data : DataSummary) (k1 k2 : String) : Option CorrVal :=
  match calculateCorrelations data k1 with
  | some row => row k2
  | none => none

/-- The filter `values.filter(v => v !== null && v !== undefined &&
v !== '')` used by the duplicate-value pass of
`DataAnalyzer.detectAnomalies` (exportService.ts:472): whitespace-only
strings are kept. -/
def duplicateCandidateValues (values : List Cell) : List Cell :=
  values.filter (fun v => !(v == Cell.null) && !(v == Cell.undef) && !(v == Cell.str ""))

theorem insertLe_perm (le : α → α → Bool) (x : α) (l : List α) :
    (insertLe le x l).Perm (x :: l) := by
  induction l with
  | nil => simp [insertLe]
  | cons y ys ih =>
    by_cases h : le x y
    · simp [insertLe, h]
    · simp only [insertLe, h, if_neg]
      exact ((ih.cons y).trans (List.Perm.swap x y ys)).symm.symm

theorem sortBy_perm (le : α → α → Bool) (l : List α) : (sortBy le l).Perm l := by
  induction l with
  | nil => simp [sortBy]
  | cons y ys ih =>
    have : sortBy le (y :: ys) = insertLe le y (sortBy le ys) := rfl
    rw [this]
    exact (insertLe_perm le y (sortBy le ys)).trans (ih.cons y)

theorem mem_sortBy {le : α → α → Bool} {l : List α} {x : α} :
    x ∈ sortBy le l ↔ x ∈ l :=
  (sortBy_perm le l).mem_iff

theorem length_sortBy (le : α → α → Bool) (l : List α) :
    (sortBy le l).length = l.length :=
  (sortBy_perm le l).length_eq

theorem insertLe_sorted_q {x : ℚ} {l : List ℚ} (hs : l.Sorted (· ≤ ·)) :
    (insertLe (fun a b => decide (a ≤ b)) x l).Sorted (· ≤ ·) := by
  induction l with
  | nil => simp [insertLe]
  | cons y ys ih =>
    rcases List.sorted_cons.mp hs with ⟨hy, hys⟩
    by_cases h : x ≤ y
    · have hrw : insertLe (fun a b => decide (a ≤ b)) x (y :: ys) = x :: y :: ys := by
        simp [insertLe, h]
      rw [hrw]
      refine List.sorted_cons.mpr ⟨?_, hs⟩
      · intro b hb
        rcases List.mem_cons.mp hb with rfl | hb
        · exact h
        · exact h.trans (hy b hb)
    · have hxy : y ≤ x := le_of_not_le h
      have : insertLe (fun a b => decide (a ≤ b)) x (y :: ys)
          = y :: insertLe (fun a b => decide (a ≤ b)) x ys := by
        simp [insertLe, h]
      rw [this]
      refine List.sorted_cons.mpr ⟨?_, ih hys⟩
      intro b hb
      have hb2 := (insertLe_perm (fun a b => decide (a ≤ b)) x ys).mem_iff.mp hb
      rcases List.mem_cons.mp hb2 with rfl | hb2
      · exact hxy
      · exact hy b hb2

theorem sortBy_sorted_q (l : List ℚ) :
    (sortBy (fun a b => decide (a ≤ b)) l).Sorted (· ≤ ·) := by
  induction l with
  | nil => simp [sortBy]
  | cons y ys ih => exact insertLe_sorted_q ih

theorem getD_le_getD_of_sorted {l : List ℚ} (hs : l.Sorted (· ≤ ·)) {i j : ℕ}
    (hij : i ≤ j) (hj : j < l.length) : l.getD i 0 ≤ l.getD j 0 := by
  have hi : i < l.length := lt_of_le_of_lt hij hj
  rw [List.getD_eq_getElem?_getD, List.getElem?_eq_getElem hi,
      List.getD_eq_getElem?_getD, List.getElem?_eq_getElem hj]
  simp only [Option.getD_some]
  rcases eq_or_lt_of_le hij with rfl | hlt
  · exact le_refl _
  · exact List.pairwise_iff_getElem.mp hs i j hi hj hlt

/-- C1, counterexample: the claim says every component treats a
whitespace-only string as missing, but `DataAnalyzer.calculateNumericalStats`
keeps `"  "` as the number 0: on the column `["  ", "10"]` it reports mean
5 (the mean of `{0, 10}`), while excluding the missing cell would give
mean 10. `DataCleaner.isMissing` does classify `"  "` as missing. -/
theorem c1_counterexample :
    isMissing (Cell.str "  ") = true ∧
    (calculateNumericalStats [Cell.str "  ", Cell.str "10"]).mean = 5 := by
  constructor
  · decide
  · have e1 : jsToNum (Cell.str "  ") = some 0 := by
      norm_num +decide [jsToNum, strToNum, jsTrimList]
    have e2 : jsToNum (Cell.str "10") = some 10 := by
      norm_num +decide [jsToNum, strToNum, strToNumCore, jsTrimList, jsSign, digitsToNat]
    have h1 : numericCoercibleValues [Cell.str "  ", Cell.str "10"] = [0, 10] := by
      simp [numericCoercibleValues, e1, e2]
    norm_num +decide [calculateNumericalStats, h1, round2]

/-- C1, amended: the cleaning component's predicate `DataCleaner.isMissing`
holds exactly of `null`, `undefined` and strings whose trimmed form is
empty (so `""`, `"  "`, `null`, `undefined` are missing there while `"0"`
and the number `0` are not); the analysis components do not share this
predicate — the descriptive-statistics filter keeps a whitespace-only
string as the numeric value 0, the correlation pair filter keeps `null`
and empty strings as 0, and the anomaly duplicate-value filter keeps a
whitespace-only string as present. -/
theorem c1_amended :
    (∀ v, isMissing v = true ↔
      (v = Cell.null ∨ v = Cell.undef ∨ ∃ s, v = Cell.str s ∧ jsTrim s = "")) ∧
    isMissing (Cell.str "0") = false ∧
    isMissing (Cell.num (some 0)) = false ∧
    numericCoercibleValues [Cell.str "  "] = [0] ∧
    pearsonPairs [Cell.null, Cell.str ""] [Cell.str "1", Cell.str "2"] = [(0, 1), (0, 2)] ∧
    duplicateCandidateValues [Cell.str "  "] = [Cell.str "  "] := by
  refine ⟨?_, by decide, by decide, ?_, ?_, by decide⟩
  · intro v
    cases v with
    | null => simp [isMissing]
    | undef => simp [isMissing]
    | str s => simp [isMissing]
    | num x => simp [isMissing]
    | bool b => simp [isMissing]
  · have e1 : jsToNum (Cell.str "  ") = some 0 := by
      norm_num +decide [jsToNum, strToNum, jsTrimList]
    simp [numericCoercibleValues, e1]
  · have e1 : jsToNum (Cell.str "1") = some 1 := by
      norm_num +decide [jsToNum, strToNum, strToNumCore, jsTrimList, jsSign, digitsToNat]
    have e2 : jsToNum (Cell.str "2") = some 2 := by
      norm_num +decide [jsToNum, strToNum, strToNumCore, jsTrimList, jsSign, digitsToNat]
    have e3 : jsToNum (Cell.str "") = some 0 := by
      norm_num +decide [jsToNum, strToNum, jsTrimList]
    have e0 : jsToNum Cell.null = some 0 := rfl
    simp [pearsonPairs, jsAt, List.range_succ, e0, e1, e2, e3]

/-- C7: computation edge cases are total and default-valued — an empty
numeric-coercible set gives the all-zero stats object; fewer than 2 usable
correlation pairs gives coefficient 0; a zero-variance pair (all used
values of a column equal, making the source's denominator
`Math.sqrt(0) = 0`) gives coefficient 0; an all-missing column is returned
unchanged by imputation with method `no_imputation_possible` and count 0.
(Being Lean functions, all components are total: no error is raised.) -/
theorem c7_edge_case_defaults :
    (∀ values, numericCoercibleValues values = [] →
      calculateNumericalStats values =
        { mean := 0, median := 0, stdSq := 0, min := 0, max := 0, q1 := 0, q3 := 0,
          outliers := [] }) ∧
    (∀ x y, (pearsonPairs x y).length < 2 →
      calculatePearsonCorrelation x y = CorrVal.zero) ∧
    (∀ x y (c : ℚ), (∀ p ∈ pearsonPairs x y, p.1 = c) →
      calculatePearsonCorrelation x y = CorrVal.zero) ∧
    (∀ values columnType, values.filter (fun v => !isMissing v) = [] →
      imputeMissingValues values columnType = (values, 0, "no_imputation_possible")) := by
  refine ⟨?_, ?_, ?_, ?_⟩
  · intro values h
    simp [calculateNumericalStats, h]
  · intro x y h
    simp [calculatePearsonCorrelation, h]
  · intro x y c h
    by_cases hlen : (pearsonPairs x y).length < 2
    · simp [calculatePearsonCorrelation, hlen]
    · have h0 : ∀ b ∈ (pearsonPairs x y).map Prod.fst, b = c := by
        intro b hb
        rcases List.mem_map.mp hb with ⟨p, hp, rfl⟩
        exact h p hp
      have h1 : (pearsonPairs x y).map Prod.fst
          = List.replicate (pearsonPairs x y).length c := by
        simpa using List.eq_replicate_of_mem h0
      have h0b : ∀ b ∈ (pearsonPairs x y).map (fun p => p.1 * p.1), b = c * c := by
        intro b hb
        rcases List.mem_map.mp hb with ⟨p, hp, rfl⟩
        rw [h p hp]
      have h2 : (pearsonPairs x y).map (fun p => p.1 * p.1)
          = List.replicate (pearsonPairs x y).length (c * c) := by
        simpa using List.eq_replicate_of_mem h0b
      have hA : ((pearsonPairs x y).length : ℚ)
            * ((pearsonPairs x y).map (fun p => p.1 * p.1)).sum
          - ((pearsonPairs x y).map Prod.fst).sum * ((pearsonPairs x y).map Prod.fst).sum
          = 0 := by
        rw [h1, h2, List.sum_replicate, List.sum_replicate, nsmul_eq_mul, nsmul_eq_mul]
        ring
      simp only [calculatePearsonCorrelation, hlen, if_false]
      rw [hA]
      simp
  · intro values columnType h
    simp [imputeMissingValues, h]

/-- Witness for `c7_edge_case_defaults` at concrete inputs. -/
theorem c7_edge_case_defaults_witness :
    calculateNumericalStats [Cell.str "abc"] =
      { mean := 0, median := 0, stdSq := 0, min := 0, max := 0, q1 := 0, q3 := 0,
        outliers := [] } ∧
    calculatePearsonCorrelation [Cell.str "1"] [Cell.str "2"] = CorrVal.zero ∧
    calculatePearsonCorrelation [Cell.num (some 3), Cell.num (some 3)]
      [Cell.num (some 1), Cell.num (some 2)] = CorrVal.zero ∧
    imputeMissingValues [Cell.null] "numerical" = ([Cell.null], 0, "no_imputation_possible") := by
  have hstr : strToNum "abc" = none := by
    norm_num +decide [strToNum, strToNumCore, jsTrimList, jsSign]
  have hp : pearsonPairs [Cell.num (some 3), Cell.num (some 3)]
      [Cell.num (some 1), Cell.num (some 2)] = [(3, 1), (3, 2)] := by
    simp [pearsonPairs, jsAt, List.range_succ, jsToNum]
  have e1 : jsToNum (Cell.str "1") = some 1 := by
    norm_num +decide [jsToNum, strToNum, strToNumCore, jsTrimList, jsSign, digitsToNat]
  have e2 : jsToNum (Cell.str "2") = some 2 := by
    norm_num +decide [jsToNum, strToNum, strToNumCore, jsTrimList, jsSign, digitsToNat]
  refine ⟨c7_edge_case_defaults.1 _ ?_, c7_edge_case_defaults.2.1 _ _ ?_,
    c7_edge_case_defaults.2.2.1 _ _ 3 ?_, c7_edge_case_defaults.2.2.2 _ _ ?_⟩
  · simp [numericCoercibleValues, jsToNum, hstr]
  · have hp1 : pearsonPairs [Cell.str "1"] [Cell.str "2"] = [(1, 2)] := by
      simp [pearsonPairs, jsAt, List.range_succ, e1, e2]
    rw [hp1]
    decide
  · rw [hp]
    intro p hp2
    rcases List.mem_cons.mp hp2 with rfl | hp3
    · rfl
    · rcases List.mem_singleton.mp hp3 with rfl
      rfl
  · simp [isMissing]

theorem objUpd_foldl_lookup {α β : Type} (l : List β) (key : β → String) (val : β → α)
    (m0 : String → Option α) (k : String) :
    (l.foldl (fun acc c => objUpd acc (key c) (val c)) m0) k =
      match l.reverse.find? (fun c => key c == k) with
      | some c => some (val c)
      | none => m0 k := by
  induction l generalizing m0 with
  | nil => simp
  | cons c t ih =>
    rw [List.foldl_cons, ih, List.reverse_cons, List.find?_append]
    cases hf : t.reverse.find? (fun c => key c == k) with
    | some c2 => simp [hf]
    | none =>
      by_cases hk : key c == k
      · have hkk : k = key c := (eq_of_beq hk).symm
        simp [hf, hk, objUpd, hkk]
      · have hkk : ¬(k = key c) := fun h => hk (by simp [h])
        simp [hf, hk, objUpd, hkk]

theorem pearsonPairs_eq_zip (x y : List Cell) :
    pearsonPairs x y = (x.zip y).filterMap (fun p =>
      match jsToNum p.1, jsToNum p.2 with
      | some a, some b => some (a, b)
      | _, _ => none) := by
  induction x generalizing y with
  | nil => simp [pearsonPairs]
  | cons a xs ih =>
    cases y with
    | nil =>
      have hnone : ∀ i ∈ List.range (a :: xs).length,
          (match jsToNum (jsAt (a :: xs) i), jsToNum (jsAt ([] : List Cell) i) with
           | some a, some b => some ((a, b) : ℚ × ℚ)
           | _, _ => none) = none := by
        intro i _
        have : jsAt ([] : List Cell) i = Cell.undef := by simp [jsAt]
        rw [this]
        cases jsToNum (jsAt (a :: xs) i) <;> simp [jsToNum]
      simp only [pearsonPairs, List.zip_nil_right, List.filterMap_nil]
      exact List.filterMap_eq_nil_iff.mpr hnone
    | cons b ys =>
      simp only [pearsonPairs, List.length_cons, List.range_succ_eq_map,
        List.filterMap_cons, List.filterMap_map, List.zip_cons_cons]
      have hcomp : ((fun i =>
          match jsToNum (jsAt (a :: xs) i), jsToNum (jsAt (b :: ys) i) with
          | some a, some b => some ((a, b) : ℚ × ℚ)
          | _, _ => none) ∘ Nat.succ) = (fun i =>
          match jsToNum (jsAt xs i), jsToNum (jsAt ys i) with
          | some a, some b => some ((a, b) : ℚ × ℚ)
          | _, _ => none) := by
        funext i
        simp [Function.comp, jsAt]
      have h0 : jsAt (a :: xs) 0 = a := rfl
      have h0b : jsAt (b :: ys) 0 = b := rfl
      rw [hcomp, h0, h0b]
      cases jsToNum a <;> cases jsToNum b <;>
        simp [pearsonPairs] at ih ⊢ <;> exact ih ys

theorem pearsonPairs_swap (x y : List Cell) :
    pearsonPairs y x = (pearsonPairs x y).map Prod.swap := by
  rw [pearsonPairs_eq_zip, pearsonPairs_eq_zip, ← List.zip_swap x y, List.filterMap_map,
    List.map_filterMap]
  apply List.filterMap_congr
  intro p _
  cases h1 : jsToNum p.1 <;> cases h2 : jsToNum p.2 <;>
    simp [Function.comp, Prod.swap, h1, h2]

theorem pearson_symm (x y : List Cell) :
    calculatePearsonCorrelation y x = calculatePearsonCorrelation x y := by
  have hswap := pearsonPairs_swap x y
  simp only [calculatePearsonCorrelation, hswap, List.length_map, List.map_map]
  have e1 : (Prod.fst ∘ Prod.swap : ℚ × ℚ → ℚ) = Prod.snd := funext (fun p => rfl)
  have e2 : (Prod.snd ∘ Prod.swap : ℚ × ℚ → ℚ) = Prod.fst := funext (fun p => rfl)
  have e3 : (((fun p => p.1 * p.1) : ℚ × ℚ → ℚ) ∘ Prod.swap) = fun p => p.2 * p.2 :=
    funext (fun p => rfl)
  have e4 : (((fun p => p.2 * p.2) : ℚ × ℚ → ℚ) ∘ Prod.swap) = fun p => p.1 * p.1 :=
    funext (fun p => rfl)
  have e5 : (((fun p => p.1 * p.2) : ℚ × ℚ → ℚ) ∘ Prod.swap) = fun p => p.2 * p.1 :=
    funext (fun p => rfl)
  rw [e1, e2, e3, e4, e5]
  have e6 : ((pearsonPairs x y).map (fun p => p.2 * p.1)).sum
      = ((pearsonPairs x y).map (fun p => p.1 * p.2)).sum := by
    congr 1
    apply List.map_congr_left
    intro p _
    ring
  rw [e6]
  set n : ℚ := ((pearsonPairs x y).length : ℚ) with hn
  set sx := ((pearsonPairs x y).map Prod.fst).sum with hsx
  set sy := ((pearsonPairs x y).map Prod.snd).sum with hsy
  set sxy := ((pearsonPairs x y).map (fun p => p.1 * p.2)).sum with hsxy
  set sx2 := ((pearsonPairs x y).map (fun p => p.1 * p.1)).sum with hsx2
  set sy2 := ((pearsonPairs x y).map (fun p => p.2 * p.2)).sum with hsy2
  rw [mul_comm (n * sy2 - sy * sy) (n * sx2 - sx * sx), mul_comm sy sx]

theorem corrLookup_eq (data : DataSummary) (k1 k2 : String) :
    corrLookup data k1 k2 =
      match (numericalColumnsOf data).reverse.find? (fun c => c.name == k1),
            (numericalColumnsOf data).reverse.find? (fun c => c.name == k2) with
      | some c1, some c2 => some (if c1.name = c2.name then CorrVal.one
          else calculatePearsonCorrelation c1.values c2.values)
      | _, _ => none := by
  unfold corrLookup calculateCorrelations
  rw [objUpd_foldl_lookup (numericalColumnsOf data) DataColumn.name _ (fun _ => none) k1]
  cases h1 : (numericalColumnsOf data).reverse.find? (fun c => c.name == k1) with
  | none => simp
  | some c1 =>
    simp only []
    rw [objUpd_foldl_lookup (numericalColumnsOf data) DataColumn.name _ (fun _ => none) k2]
    cases h2 : (numericalColumnsOf data).reverse.find? (fun c => c.name == k2) with
    | none => simp
    | some c2 => simp

/-- C5: the correlation matrix assigns exactly the constant 1 (`CorrVal.one`,
not a computed value) as the self-correlation of every numerical column,
and the matrix is exactly symmetric — `correlations[a][b] =
correlations[b][a]` as `CorrVal`s, hence the denoted rounded coefficients
agree (stronger than agreement within the 3-decimal rounding). -/
theorem c5_correlation_matrix (data : DataSummary) :
    (∀ k1 k2, corrLookup data k1 k2 = corrLookup data k2 k1) ∧
    (∀ c ∈ data.columns, c.type = "numerical" →
      corrLookup data c.name c.name = some CorrVal.one) := by
  constructor
  · intro k1 k2
    rw [corrLookup_eq, corrLookup_eq]
    cases h1 : (numericalColumnsOf data).reverse.find? (fun c => c.name == k1) with
    | none =>
      cases h2 : (numericalColumnsOf data).reverse.find? (fun c => c.name == k2) <;> simp
    | some c1 =>
      cases h2 : (numericalColumnsOf data).reverse.find? (fun c => c.name == k2) with
      | none => simp
      | some c2 =>
        simp only [Option.some_inj]
        by_cases hname : c1.name = c2.name
        · simp [hname]
        · have hname2 : ¬(c2.name = c1.name) := fun h => hname h.symm
          simp only [hname, hname2, if_false]
          exact (pearson_symm c1.values c2.values).symm
  · intro c hc htype
    have hmem : c ∈ numericalColumnsOf data :=
      List.mem_filter.mpr ⟨hc, by simp [htype]⟩
    have hmemrev : c ∈ (numericalColumnsOf data).reverse := List.mem_reverse.mpr hmem
    have hsome : ((numericalColumnsOf data).reverse.find? (fun d => d.name == c.name)).isSome :=
      List.find?_isSome.mpr ⟨c, hmemrev, by simp⟩
    obtain ⟨c1, hc1⟩ := Option.isSome_iff_exists.mp hsome
    have hname : c1.name = c.name := by
      have := List.find?_some hc1
      simpa using this
    rw [corrLookup_eq, hc1]
    simp [hname]

/-- Witness for `c5_correlation_matrix` on a concrete two-column table. -/
theorem c5_correlation_matrix_witness :
    (corrLookup
      { totalRows := 2
        totalColumns := 2
        columns := [{ name := "a", type := "numerical",
                      values := [Cell.num (some 1), Cell.num (some 2)],
                      missingCount := 0, missingRate := 0 },
                    { name := "b", type := "numerical",
                      values := [Cell.num (some 2), Cell.num (some 5)],
                      missingCount := 0, missingRate := 0 }]
        fileName := "t" } "a" "b"
    = corrLookup
      { totalRows := 2
        totalColumns := 2
        columns := [{ name := "a", type := "numerical",
                      values := [Cell.num (some 1), Cell.num (some 2)],
                      missingCount := 0, missingRate := 0 },
                    { name := "b", type := "numerical",
                      values := [Cell.num (some 2), Cell.num (some 5)],
                      missingCount := 0, missingRate := 0 }]
        fileName := "t" } "b" "a") ∧
    corrLookup
      { totalRows := 2
        totalColumns := 2
        columns := [{ name := "a", type := "numerical",
                      values := [Cell.num (some 1), Cell.num (some 2)],
                      missingCount := 0, missingRate := 0 },
                    { name := "b", type := "numerical",
                      values := [Cell.num (some 2), Cell.num (some 5)],
                      missingCount := 0, missingRate := 0 }]
        fileName := "t" } "a" "a" = some CorrVal.one := by
  constructor
  · exact (c5_correlation_matrix _).1 "a" "b"
  · exact (c5_correlation_matrix _).2
      { name := "a", type := "numerical",
        values := [Cell.num (some 1), Cell.num (some 2)],
        missingCount := 0, missingRate := 0 }
      (by simp) rfl

theorem fixErroneousValues_length (values : List Cell) (ty : String) :
    (fixErroneousValues values ty).1.length = values.length := by
  simp [fixErroneousValues]

theorem convertTypes_length (values : List Cell) (col : DataColumn) :
    (convertTypes values col).1.length = values.length := by
  unfold convertTypes
  dsimp only
  split_ifs <;> simp

theorem imputeMissingValues_length (values : List Cell) (ty : String) :
    (imputeMissingValues values ty).1.length = values.length := by
  unfold imputeMissingValues
  dsimp only
  split_ifs <;> simp

theorem cleanColumn_values_length (col : DataColumn) (totalRows : ℕ) :
    (cleanColumn col totalRows).1.values.length = col.values.length := by
  simp [cleanColumn, imputeMissingValues_length, convertTypes_length, fixErroneousValues_length]

theorem foldl_set_length (l : List ℕ) (g : ℕ → Bool) (fl : List Cell) :
    (l.foldl (fun fl i => if g i then fl.set i (Cell.bool true) else fl) fl).length
      = fl.length := by
  induction l generalizing fl with
  | nil => rfl
  | cons i t ih =>
    rw [List.foldl_cons, ih]
    split_ifs <;> simp

theorem markRow_length (flags cleaned orig : List Cell) :
    (markRow flags cleaned orig).length = flags.length := by
  unfold markRow
  exact foldl_set_length _ _ flags

theorem flagValues_length (ps : List (List Cell × List Cell)) (fl : List Cell) :
    (ps.foldl (fun fl p => markRow fl p.1 p.2) fl).length = fl.length := by
  induction ps generalizing fl with
  | nil => rfl
  | cons p t ih => rw [List.foldl_cons, ih, markRow_length]

/-- C2: on a rectangular table (every column has `totalRows` values), the
cleaned table has one more column (the appended flag column), the same
`totalRows`, and every column of the cleaned table — including the flag
column — again has exactly `totalRows` values. -/
theorem c2_cleaned_shape (t : DataSummary)
    (hrect : ∀ c ∈ t.columns, c.values.length = t.totalRows) :
    (cleanData t).1.totalColumns = t.totalColumns + 1 ∧
    (cleanData t).1.totalRows = t.totalRows ∧
    ∀ c ∈ (cleanData t).1.columns, c.values.length = t.totalRows := by
  refine ⟨rfl, rfl, ?_⟩
  intro c hc
  have hc2 : c ∈ (t.columns.map (fun c => cleanColumn c t.totalRows)).map Prod.fst
      ++ [{ name := "nettoyage_effectue", type := "categorical",
            values := (List.zip (((t.columns.map (fun c => cleanColumn c t.totalRows)).map
                Prod.fst).map DataColumn.values) (t.columns.map DataColumn.values)).foldl
                (fun fl p => markRow fl p.1 p.2) (List.replicate t.totalRows (Cell.bool false)),
            missingCount := 0, missingRate := 0 }] := hc
  rcases List.mem_append.mp hc2 with hcl | hflag
  · rw [List.map_map] at hcl
    rcases List.mem_map.mp hcl with ⟨c0, hc0, rfl⟩
    have := cleanColumn_values_length c0 t.totalRows
    simp only [Function.comp] at *
    rw [this]
    exact hrect c0 hc0
  · rcases List.mem_singleton.mp hflag with rfl
    simp only []
    rw [flagValues_length, List.length_replicate]

/-- Witness for `c2_cleaned_shape` on a concrete one-column table. -/
theorem c2_cleaned_shape_witness :
    (∀ c ∈ ({ totalRows := 1
              totalColumns := 1
              columns := [{ name := "x", type := "text", values := [Cell.num (some 1)],
                            missingCount := 0, missingRate := 0 }]
              fileName := "f" } : DataSummary).columns, c.values.length = 1) ∧
    ((cleanData { totalRows := 1
                  totalColumns := 1
                  columns := [{ name := "x", type := "text", values := [Cell.num (some 1)],
                                missingCount := 0, missingRate := 0 }]
                  fileName := "f" }).1.totalColumns = 1 + 1 ∧
     (cleanData { totalRows := 1
                  totalColumns := 1
                  columns := [{ name := "x", type := "text", values := [Cell.num (some 1)],
                                missingCount := 0, missingRate := 0 }]
                  fileName := "f" }).1.totalRows = 1 ∧
     ∀ c ∈ (cleanData { totalRows := 1
                        totalColumns := 1
                        columns := [{ name := "x", type := "text", values := [Cell.num (some 1)],
                                      missingCount := 0, missingRate := 0 }]
                        fileName := "f" }).1.columns, c.values.length = 1) := by
  constructor
  · intro c hc
    rcases List.mem_singleton.mp hc with rfl
    rfl
  · exact c2_cleaned_shape _ (by
      intro c hc
      rcases List.mem_singleton.mp hc with rfl
      rfl)

/-- Was row `i` modified by cleaning? — some column's cleaned value is
`!==` the original raw value at `i`. -/
def rowModified (t : DataSummary) (i : ℕ) : Bool :=
  t.columns.any (fun c =>
    jsStrictNeq (jsAt (cleanColumn c t.totalRows).1.values i) (jsAt c.values i))

theorem foldl_set_getD (l : List ℕ) (g : ℕ → Bool) (fl : List Cell) (i : ℕ) :
    ((l.foldl (fun fl j => if g j then fl.set j (Cell.bool true) else fl) fl)).getD i Cell.undef
      = if i ∈ l ∧ g i = true ∧ i < fl.length then Cell.bool true
        else fl.getD i Cell.undef := by
  induction l generalizing fl with
  | nil => simp
  | cons j t ih =>
    rw [List.foldl_cons, ih]
    have hlen : (if g j then fl.set j (Cell.bool true) else fl).length = fl.length := by
      split_ifs <;> simp
    rw [hlen]
    by_cases hmem : i ∈ t ∧ g i = true ∧ i < fl.length
    · have hmem2 : i ∈ j :: t ∧ g i = true ∧ i < fl.length :=
        ⟨List.mem_cons_of_mem _ hmem.1, hmem.2⟩
      simp [hmem, hmem2]
    · simp only [hmem, if_neg, if_false]
      by_cases hij : i = j
      · subst hij
        by_cases hg : g i = true
        · by_cases hlt : i < fl.length
          · have : i ∈ i :: t ∧ g i = true ∧ i < fl.length := ⟨List.mem_cons_self .., hg, hlt⟩
            simp only [this, if_pos, hg, if_true]
            rw [List.getD_eq_getElem?_getD, List.getElem?_set_self (by simpa using hlt)]
            rfl
          · have hc : ¬(i ∈ i :: t ∧ g i = true ∧ i < fl.length) := fun h => hlt h.2.2
            simp only [hc, if_neg]
            simp only [hg, if_true]
            rw [List.set_eq_of_length_le (le_of_not_lt hlt)]
            simp
        · have hc : ¬(i ∈ i :: t ∧ g i = true ∧ i < fl.length) := fun h => hg h.2.1
          simp only [hc, if_neg]
          simp [hg]
      · have hc : (i ∈ j :: t ∧ g i = true ∧ i < fl.length)
            ↔ (i ∈ t ∧ g i = true ∧ i < fl.length) := by
          constructor
          · rintro ⟨h1, h2, h3⟩
            rcases List.mem_cons.mp h1 with rfl | h1
            · exact absurd rfl hij
            · exact ⟨h1, h2, h3⟩
          · rintro ⟨h1, h2, h3⟩
            exact ⟨List.mem_cons_of_mem _ h1, h2, h3⟩
        simp only [hc, hmem, if_neg, if_false]
        split_ifs with hg
        · rw [List.getD_eq_getElem?_getD, List.getElem?_set_ne (fun h => hij h.symm),
            ← List.getD_eq_getElem?_getD]
        · rfl

theorem markRow_getD (flags cleaned orig : List Cell) (i : ℕ) :
    (markRow flags cleaned orig).getD i Cell.undef
      = if i < cleaned.length ∧ jsStrictNeq (jsAt cleaned i) (jsAt orig i) = true
            ∧ i < flags.length
        then Cell.bool true else flags.getD i Cell.undef := by
  unfold markRow
  rw [foldl_set_getD]
  simp [jsAt, List.mem_range]

theorem flagFold_getD (ps : List (List Cell × List Cell)) (n i : ℕ) (hi : i < n)
    (hlen : ∀ p ∈ ps, p.1.length = n) :
    ((ps.foldl (fun fl p => markRow fl p.1 p.2)
        (List.replicate n (Cell.bool false))).getD i Cell.undef)
      = Cell.bool (ps.any (fun p => jsStrictNeq (jsAt p.1 i) (jsAt p.2 i))) := by
  suffices h : ∀ (ps : List (List Cell × List Cell)) (fl : List Cell) (b : Bool),
      fl.length = n → (∀ p ∈ ps, p.1.length = n) →
      fl.getD i Cell.undef = Cell.bool b →
      ((ps.foldl (fun fl p => markRow fl p.1 p.2) fl).getD i Cell.undef)
        = Cell.bool (b || ps.any (fun p => jsStrictNeq (jsAt p.1 i) (jsAt p.2 i))) by
    rw [h ps _ false (List.length_replicate _ _) hlen (by simp [hi])]
    simp
  intro ps
  induction ps with
  | nil =>
    intro fl b _ _ hfl
    simpa using hfl
  | cons p t ih =>
    intro fl b hfllen hplen hfl
    rw [List.foldl_cons]
    have hmark : (markRow fl p.1 p.2).getD i Cell.undef
        = Cell.bool (b || jsStrictNeq (jsAt p.1 i) (jsAt p.2 i)) := by
      rw [markRow_getD]
      have hp1 : p.1.length = n := hplen p (List.mem_cons_self ..)
      by_cases hd : jsStrictNeq (jsAt p.1 i) (jsAt p.2 i) = true
      · rw [if_pos ⟨by omega, hd, by omega⟩, hd]
        simp
      · have : ¬(i < p.1.length ∧ jsStrictNeq (jsAt p.1 i) (jsAt p.2 i) = true
            ∧ i < fl.length) := fun h => hd h.2.1
        rw [if_neg this, hfl]
        simp only [Bool.not_eq_true] at hd
        rw [hd]
        simp
    rw [ih (markRow fl p.1 p.2) (b || jsStrictNeq (jsAt p.1 i) (jsAt p.2 i))
      (by rw [markRow_length]; exact hfllen) (fun q hq => hplen q (List.mem_cons_of_mem _ hq))
      hmark]
    simp [Bool.or_assoc]

theorem foldl_union_mem (ps : List α) (f : α → Finset ℕ) (s0 : Finset ℕ) (i : ℕ) :
    i ∈ ps.foldl (fun s p => s ∪ f p) s0 ↔ i ∈ s0 ∨ ∃ p ∈ ps, i ∈ f p := by
  induction ps generalizing s0 with
  | nil => simp
  | cons p t ih =>
    rw [List.foldl_cons, ih]
    simp only [Finset.mem_union, List.mem_cons]
    constructor
    · rintro ((h | h) | ⟨q, hq, h⟩)
      · exact Or.inl h
      · exact Or.inr ⟨p, Or.inl rfl, h⟩
      · exact Or.inr ⟨q, Or.inr hq, h⟩
    · rintro (h | ⟨q, (rfl | hq), h⟩)
      · exact Or.inl (Or.inl h)
      · exact Or.inl (Or.inr h)
      · exact Or.inr ⟨q, hq, h⟩

theorem card_filter_range (n : ℕ) (g : ℕ → Bool) :
    ((Finset.range n).filter (fun i => g i)).card = ((List.range n).filter g).length := by
  induction n with
  | zero => rfl
  | succ m ih =>
    rw [Finset.range_succ, List.range_succ, Finset.filter_insert, List.filter_append]
    by_cases h : g m
    · rw [if_pos h, Finset.card_insert_of_not_mem (by simp), ih]
      simp [h]
    · rw [if_neg h, ih]
      simp [h]

theorem any_map_eq {α β : Type} (l : List α) (f : α → β) (p : β → Bool) :
    (l.map f).any p = l.any (fun c => p (f c)) := by
  induction l with
  | nil => rfl
  | cons a t ih => simp [ih]

theorem valuePairs_eq (t : DataSummary) :
    List.zip (((t.columns.map (fun c => cleanColumn c t.totalRows)).map Prod.fst).map
        DataColumn.values) (t.columns.map DataColumn.values)
      = t.columns.map (fun c => ((cleanColumn c t.totalRows).1.values, c.values)) := by
  rw [List.map_map, List.map_map, List.zip_map']
  rfl

/-- The flag column `cleanData` appends (the `cleaningFlagColumn` of
fileProcessor.ts:149-155 after the marking loop has run). -/
def flagColumnOf (t : DataSummary) : DataColumn :=
  { name := "nettoyage_effectue"
    type := "categorical"
    values := ((((t.columns.map (fun c => cleanColumn c t.totalRows)).map Prod.fst).map
        DataColumn.values).zip (t.columns.map DataColumn.values)).foldl
        (fun fl p => markRow fl p.1 p.2) (List.replicate t.totalRows (Cell.bool false))
    missingCount := 0
    missingRate := 0 }

theorem cleanData_columns (t : DataSummary) :
    (cleanData t).1.columns
      = (t.columns.map (fun c => cleanColumn c t.totalRows)).map Prod.fst ++ [flagColumnOf t] :=
  rfl

theorem cleanData_totalRowsCleaned (t : DataSummary) :
    (cleanData t).2.totalRowsCleaned
      = (((((t.columns.map (fun c => cleanColumn c t.totalRows)).map Prod.fst).map
          DataColumn.values).zip (t.columns.map DataColumn.values)).foldl
          (fun s p => s ∪ diffIdxSet p.1 p.2) ∅).card :=
  rfl

theorem flagColumnOf_values (t : DataSummary)
    (hrect : ∀ c ∈ t.columns, c.values.length = t.totalRows) :
    (flagColumnOf t).values
      = (List.range t.totalRows).map (fun i => Cell.bool (rowModified t i)) := by
  have hplen : ∀ p ∈ t.columns.map (fun c => ((cleanColumn c t.totalRows).1.values, c.values)),
      p.1.length = t.totalRows := by
    intro p hp
    rcases List.mem_map.mp hp with ⟨c, hc, rfl⟩
    rw [cleanColumn_values_length]
    exact hrect c hc
  show ((((t.columns.map (fun c => cleanColumn c t.totalRows)).map Prod.fst).map
      DataColumn.values).zip (t.columns.map DataColumn.values)).foldl
      (fun fl p => markRow fl p.1 p.2) (List.replicate t.totalRows (Cell.bool false)) = _
  rw [valuePairs_eq]
  apply List.ext_getElem
  · rw [flagValues_length, List.length_replicate, List.length_map, List.length_range]
  · intro i h1 h2
    have hi : i < t.totalRows := by
      rw [flagValues_length, List.length_replicate] at h1
      exact h1
    have hL := flagFold_getD
      (t.columns.map (fun c => ((cleanColumn c t.totalRows).1.values, c.values)))
      t.totalRows i hi hplen
    rw [List.getD_eq_getElem?_getD, List.getElem?_eq_getElem h1, Option.getD_some] at hL
    rw [hL, List.getElem_map, List.getElem_range]
    congr 1
    rw [rowModified, any_map_eq]

/-- C3, amended: `cleanData` appends exactly one flag column, but its name
is `nettoyage_effectue` (not `cleaning_performed`); its value at row `i`
is the boolean saying whether some original column's cleaned value is
`!==` that column's original raw value at `i`, and the report's
`totalRowsCleaned` equals the number of such rows, which equals the
number of `true` entries of the flag column. -/
theorem c3_amended (t : DataSummary)
    (hrect : ∀ c ∈ t.columns, c.values.length = t.totalRows) :
    (cleanData t).1.columns
      = (t.columns.map (fun c => (cleanColumn c t.totalRows).1)) ++
        [{ name := "nettoyage_effectue", type := "categorical",
           values := (List.range t.totalRows).map (fun i => Cell.bool (rowModified t i)),
           missingCount := 0, missingRate := 0 }] ∧
    (cleanData t).2.totalRowsCleaned
      = ((List.range t.totalRows).filter (rowModified t)).length ∧
    ((List.range t.totalRows).map (fun i => Cell.bool (rowModified t i))).countP
        (fun v => v == Cell.bool true)
      = ((List.range t.totalRows).filter (rowModified t)).length := by
  refine ⟨?_, ?_, ?_⟩
  · rw [cleanData_columns, List.map_map]
    have hfun : List.map (Prod.fst ∘ fun c => cleanColumn c t.totalRows) t.columns
        = List.map (fun c => (cleanColumn c t.totalRows).1) t.columns := rfl
    rw [hfun]
    congr 1
    congr 1
    have hv := flagColumnOf_values t hrect
    unfold flagColumnOf at hv ⊢
    dsimp only at hv
    rw [hv]
  · rw [cleanData_totalRowsCleaned, valuePairs_eq]
    have hset : (t.columns.map (fun c => ((cleanColumn c t.totalRows).1.values,
        c.values))).foldl (fun s p => s ∪ diffIdxSet p.1 p.2) ∅
        = (Finset.range t.totalRows).filter (fun i => rowModified t i) := by
      apply Finset.ext
      intro i
      rw [foldl_union_mem]
      simp only [Finset.not_mem_empty, false_or, Finset.mem_filter, Finset.mem_range]
      constructor
      · rintro ⟨p, hp, hmem⟩
        rcases List.mem_map.mp hp with ⟨c, hc, rfl⟩
        rw [diffIdxSet, Finset.mem_filter, Finset.mem_range] at hmem
        rcases hmem with ⟨hlt, hneq⟩
        have hlen3 : c.values.length = t.totalRows := hrect c hc
        rw [cleanColumn_values_length c t.totalRows, hlen3] at hlt
        refine ⟨hlt, ?_⟩
        rw [rowModified, List.any_eq_true]
        exact ⟨c, hc, hneq⟩
      · rintro ⟨hlt, hmod⟩
        rw [rowModified, List.any_eq_true] at hmod
        rcases hmod with ⟨c, hc, hneq⟩
        refine ⟨((cleanColumn c t.totalRows).1.values, c.values),
          List.mem_map.mpr ⟨c, hc, rfl⟩, ?_⟩
        rw [diffIdxSet, Finset.mem_filter, Finset.mem_range]
        refine ⟨?_, hneq⟩
        rw [cleanColumn_values_length c t.totalRows, hrect c hc]
        exact hlt
    rw [hset, card_filter_range]
  · rw [List.countP_map, ← List.countP_eq_length_filter]
    apply List.countP_congr
    intro i _
    simp [Function.comp]

/-- A small concrete table used to exercise the flag-column behaviour. -/
def sampleTable : DataSummary :=
  { totalRows := 1
    totalColumns := 1
    columns := [{ name := "x", type := "text", values := [Cell.num (some 1)],
                  missingCount := 0, missingRate := 0 }]
    fileName := "f" }

/-- C3, counterexample: the appended flag column is named
`nettoyage_effectue`, not `cleaning_performed` — on a concrete table the
cleaned column names are `["x", "nettoyage_effectue"]` and no column named
`cleaning_performed` exists. -/
theorem c3_counterexample :
    ((cleanData sampleTable).1.columns.map DataColumn.name) = ["x", "nettoyage_effectue"] ∧
    ∀ c ∈ (cleanData sampleTable).1.columns, c.name ≠ "cleaning_performed" := by
  have hnames : ((cleanData sampleTable).1.columns.map DataColumn.name)
      = ["x", "nettoyage_effectue"] := by
    rw [cleanData_columns]
    simp [sampleTable, cleanColumn, flagColumnOf]
  refine ⟨hnames, ?_⟩
  intro c hc
  have : c.name ∈ ((cleanData sampleTable).1.columns.map DataColumn.name) :=
    List.mem_map.mpr ⟨c, hc, rfl⟩
  rw [hnames] at this
  rcases List.mem_cons.mp this with h | h
  · rw [h]
    decide
  · rcases List.mem_singleton.mp h with h2
    rw [h2]
    decide

/-- Witness for `c3_amended` on the concrete `sampleTable`. -/
theorem c3_amended_witness :
    (∀ c ∈ sampleTable.columns, c.values.length = sampleTable.totalRows) ∧
    ((cleanData sampleTable).1.columns
      = (sampleTable.columns.map (fun c => (cleanColumn c sampleTable.totalRows).1)) ++
        [{ name := "nettoyage_effectue", type := "categorical",
           values := (List.range sampleTable.totalRows).map
             (fun i => Cell.bool (rowModified sampleTable i)),
           missingCount := 0, missingRate := 0 }] ∧
     (cleanData sampleTable).2.totalRowsCleaned
       = ((List.range sampleTable.totalRows).filter (rowModified sampleTable)).length ∧
     ((List.range sampleTable.totalRows).map
         (fun i => Cell.bool (rowModified sampleTable i))).countP
         (fun v => v == Cell.bool true)
       = ((List.range sampleTable.totalRows).filter (rowModified sampleTable)).length) := by
  have hrect : ∀ c ∈ sampleTable.columns, c.values.length = sampleTable.totalRows := by
    intro c hc
    rcases List.mem_singleton.mp hc with rfl
    rfl
  exact ⟨hrect, c3_amended sampleTable hrect⟩

/-- The maximal count among the entries of a frequency list. -/
def maxCount (fl : List (Cell × ℕ)) : ℕ :=
  (fl.map Prod.snd).foldl max 0

theorem foldl_max_eq (l : List ℕ) (a : ℕ) : l.foldl max a = max a (l.foldl max 0) := by
  induction l generalizing a with
  | nil => simp
  | cons x t ih =>
    rw [List.foldl_cons, List.foldl_cons, ih (max a x), ih (max 0 x)]
    simp [max_assoc]

theorem maxCount_cons (e : Cell × ℕ) (fl : List (Cell × ℕ)) :
    maxCount (e :: fl) = max e.2 (maxCount fl) := by
  rw [maxCount, List.map_cons, List.foldl_cons, foldl_max_eq]
  simp [maxCount]

theorem le_maxCount {fl : List (Cell × ℕ)} {e : Cell × ℕ} (h : e ∈ fl) :
    e.2 ≤ maxCount fl := by
  induction fl with
  | nil => cases h
  | cons x t ih =>
    rw [maxCount_cons]
    rcases List.mem_cons.mp h with rfl | h2
    · exact le_max_left _ _
    · exact le_trans (ih h2) (le_max_right _ _)

theorem maxCount_mem {fl : List (Cell × ℕ)} (h : fl ≠ []) :
    ∃ e ∈ fl, e.2 = maxCount fl := by
  induction fl with
  | nil => exact absurd rfl h
  | cons x t ih =>
    rw [maxCount_cons]
    cases t with
    | nil =>
      refine ⟨x, List.mem_cons_self .., ?_⟩
      simp [maxCount]
    | cons y s =>
      rcases ih (by simp) with ⟨e, he, hmax⟩
      by_cases hc : maxCount (y :: s) ≤ x.2
      · exact ⟨x, List.mem_cons_self .., (max_eq_left hc).symm⟩
      · refine ⟨e, List.mem_cons_of_mem _ he, ?_⟩
        rw [hmax, max_eq_right (le_of_not_le hc)]

theorem getD_getLast?_of_ne_nil {l : List (Cell × ℕ)} (h : l ≠ []) (d1 d2 : Cell × ℕ) :
    (l.getLast?).getD d1 = (l.getLast?).getD d2 := by
  cases hl : l.getLast? with
  | none => exact absurd (List.getLast?_eq_none_iff.mp hl) h
  | some x => rfl

theorem reduceMax_step (a : Cell × ℕ) (t : List (Cell × ℕ)) :
    t.foldl (fun a b => if a.2 > b.2 then a else b) a
      = (((a :: t).filter (fun e => e.2 == maxCount (a :: t))).getLast?).getD a := by
  induction t generalizing a with
  | nil =>
    have : maxCount [a] = a.2 := by
      rw [maxCount]
      simp
    rw [this]
    simp
  | cons b t ih =>
    rw [List.foldl_cons]
    by_cases hab : a.2 > b.2
    · rw [if_pos hab, ih a]
      have hM : maxCount (a :: b :: t) = maxCount (a :: t) := by
        rw [maxCount_cons, maxCount_cons, maxCount_cons, max_left_comm]
        exact max_eq_right (le_max_of_le_left (le_of_lt hab))
      rw [hM]
      have hPb : (b.2 == maxCount (a :: t)) = false := by
        have : b.2 < maxCount (a :: t) := by
          rw [maxCount_cons]
          exact lt_of_lt_of_le hab (le_max_left _ _)
        simp only [beq_eq_false_iff_ne, ne_eq]
        omega
      have hfil : List.filter (fun e => e.2 == maxCount (a :: t)) (a :: b :: t)
          = List.filter (fun e => e.2 == maxCount (a :: t)) (a :: t) := by
        rw [List.filter_cons, List.filter_cons, hPb, List.filter_cons]
        rfl
      rw [hfil]
    · rw [if_neg hab, ih b]
      have hab2 : a.2 ≤ b.2 := le_of_not_lt hab
      have hM : maxCount (a :: b :: t) = maxCount (b :: t) := by
        rw [maxCount_cons]
        exact max_eq_right (le_trans hab2 (by rw [maxCount_cons]; exact le_max_left _ _))
      rw [hM]
      by_cases hPa : (a.2 == maxCount (b :: t)) = true
      · have hamax : a.2 = maxCount (b :: t) := beq_iff_eq.mp hPa
        have hbmax : (b.2 == maxCount (b :: t)) = true := by
          have hble : b.2 ≤ maxCount (b :: t) := le_maxCount (List.mem_cons_self ..)
          have : b.2 = maxCount (b :: t) := le_antisymm hble (hamax ▸ hab2)
          simp [this]
        have hfil : List.filter (fun e => e.2 == maxCount (b :: t)) (a :: b :: t)
            = a :: List.filter (fun e => e.2 == maxCount (b :: t)) (b :: t) := by
          rw [List.filter_cons, hPa]
          rfl
        rw [hfil]
        have hne : List.filter (fun e => e.2 == maxCount (b :: t)) (b :: t) ≠ [] := by
          apply List.ne_nil_of_mem (a := b)
          exact List.mem_filter.mpr ⟨List.mem_cons_self .., hbmax⟩
        obtain ⟨c, l', hl'⟩ := List.exists_cons_of_ne_nil hne
        rw [hl', List.getLast?_cons_cons]
        exact getD_getLast?_of_ne_nil (by simp) b a
      · have hfil : List.filter (fun e => e.2 == maxCount (b :: t)) (a :: b :: t)
            = List.filter (fun e => e.2 == maxCount (b :: t)) (b :: t) := by
          rw [List.filter_cons]
          simp only [hPa]
          rfl
        rw [hfil]
        have hne : List.filter (fun e => e.2 == maxCount (b :: t)) (b :: t) ≠ [] := by
          obtain ⟨e, he, hemax⟩ := maxCount_mem (show (b :: t) ≠ [] by simp)
          apply List.ne_nil_of_mem (a := e)
          exact List.mem_filter.mpr ⟨he, by simp [hemax]⟩
        exact getD_getLast?_of_ne_nil hne b a

theorem upsert_ne_nil (acc : List (Cell × ℕ)) (k : Cell) : upsert acc k ≠ [] := by
  cases acc with
  | nil => simp [upsert]
  | cons e t =>
    rw [upsert]
    split_ifs <;> simp

theorem freqList_ne_nil {l : List Cell} (h : l ≠ []) : freqList l ≠ [] := by
  have haux : ∀ (l : List Cell) (acc : List (Cell × ℕ)), acc ≠ [] →
      l.foldl upsert acc ≠ [] := by
    intro l
    induction l with
    | nil => intro acc hacc; exact hacc
    | cons x t ih => intro acc _; exact ih (upsert acc x) (upsert_ne_nil acc x)
  obtain ⟨x, t, rfl⟩ := List.exists_cons_of_ne_nil h
  rw [freqList, List.foldl_cons]
  exact haux t (upsert [] x) (upsert_ne_nil [] x)

/-- C9, counterexample: on the categorical column
`["red", "blue", "red", "blue", null]` — where `red` (first encountered)
and `blue` tie at frequency 2 — the imputed value is `blue`, the value
encountered last, not `red` as the first-encountered tie-break claims. -/
theorem c9_counterexample :
    imputeMissingValues
        [Cell.str "red", Cell.str "blue", Cell.str "red", Cell.str "blue", Cell.null]
        "categorical"
      = ([Cell.str "red", Cell.str "blue", Cell.str "red", Cell.str "blue", Cell.str "blue"],
         1, "mode") ∧
    Cell.str "blue" ≠ Cell.str "red" := by
  constructor
  · decide
  · decide

/-- C9, amended: imputing a categorical column with at least one
non-missing value fills every missing cell with the mode of the
non-missing values, but ties among equally frequent values are broken in
favor of the value encountered **last** during frequency accumulation (the
`reduce((a, b) => a[1] > b[1] ? a : b)` keeps the later entry on equal
counts): the imputed value is the last entry of the insertion-ordered
frequency list that attains the maximal count. -/
theorem c9_amended (values : List Cell)
    (h : values.filter (fun v => !isMissing v) ≠ []) :
    ∃ e : Cell × ℕ,
      ((freqList (values.filter (fun v => !isMissing v))).filter
          (fun e => e.2 == maxCount (freqList (values.filter (fun v => !isMissing v))))).getLast?
        = some e ∧
      imputeMissingValues values "categorical"
        = (values.map (fun v => if isMissing v then e.1 else v),
           values.countP isMissing, "mode") := by
  have hfl := freqList_ne_nil h
  obtain ⟨hh, tt, hcons⟩ := List.exists_cons_of_ne_nil hfl
  have hfilne : ((freqList (values.filter (fun v => !isMissing v))).filter
      (fun e => e.2 == maxCount (freqList (values.filter (fun v => !isMissing v))))) ≠ [] := by
    obtain ⟨e, he, hemax⟩ := maxCount_mem hfl
    apply List.ne_nil_of_mem (a := e)
    exact List.mem_filter.mpr ⟨he, by simp [hemax]⟩
  obtain ⟨e0, le0, hlast⟩ := List.exists_cons_of_ne_nil hfilne
  have hsome : ((freqList (values.filter (fun v => !isMissing v))).filter
      (fun e => e.2 == maxCount (freqList (values.filter (fun v => !isMissing v))))).getLast?
      = some ((e0 :: le0).getLast (by simp)) := by
    rw [hlast]
    exact List.getLast?_eq_getLast _ _
  refine ⟨(e0 :: le0).getLast (by simp), hsome, ?_⟩
  have hval : (((reduceMax (freqList (values.filter (fun v => !isMissing v)))).map
      Prod.fst).getD Cell.null) = ((e0 :: le0).getLast (by simp)).1 := by
    rw [hcons]
    show ((some (tt.foldl (fun a b => if a.2 > b.2 then a else b) hh)).map Prod.fst).getD
        Cell.null = _
    rw [reduceMax_step hh tt, ← hcons, hsome]
    rfl
  have hemp : (values.filter (fun v => !isMissing v)).isEmpty = false := by
    cases hE : (values.filter (fun v => !isMissing v)).isEmpty
    · rfl
    · exact absurd (List.isEmpty_iff.mp hE) h
  rw [imputeMissingValues]
  rw [hemp]
  simp only [Bool.false_eq_true, if_false]
  rw [← hval]

/-- Witness for `c9_amended` on a concrete tied column. -/
theorem c9_amended_witness :
    ([Cell.str "red", Cell.str "blue", Cell.str "red", Cell.str "blue",
        Cell.null].filter (fun v => !isMissing v) ≠ []) ∧
    (∃ e : Cell × ℕ,
      ((freqList ([Cell.str "red", Cell.str "blue", Cell.str "red", Cell.str "blue",
            Cell.null].filter (fun v => !isMissing v))).filter
          (fun e => e.2 == maxCount (freqList ([Cell.str "red", Cell.str "blue",
            Cell.str "red", Cell.str "blue", Cell.null].filter
            (fun v => !isMissing v))))).getLast?
        = some e ∧
      imputeMissingValues [Cell.str "red", Cell.str "blue", Cell.str "red", Cell.str "blue",
          Cell.null] "categorical"
        = ([Cell.str "red", Cell.str "blue", Cell.str "red", Cell.str "blue",
            Cell.null].map (fun v => if isMissing v then e.1 else v),
           [Cell.str "red", Cell.str "blue", Cell.str "red", Cell.str "blue",
            Cell.null].countP isMissing, "mode")) :=
  ⟨by decide, c9_amended _ (by decide)⟩

/-- The pair list the claim describes: rows where both values are present
(non-missing) **and** numeric-coercible (complete-case deletion). Written
from the claim's words, for comparison with the source's `pearsonPairs`. -/
def claimUsablePairs (x y : List Cell) : List (ℚ × ℚ) :=
  (x.zip y).filterMap (fun p =>
    if isMissing p.1 || isMissing p.2 then none
    else match jsToNum p.1, jsToNum p.2 with
      | some a, some b => some (a, b)
      | _, _ => none)

/-- C4, counterexample: on the columns `["1", null]` and `["2", "5"]` the
claim's complete-case rule leaves a single usable pair (so the claimed
coefficient is 0), but the code includes the `null` row as the pair
`(0, 5)` (since `Number(null) = 0` is not NaN) and returns the nonzero
coefficient `-3 / √9` — the missing row is not excluded. -/
theorem c4_counterexample :
    claimUsablePairs [Cell.str "1", Cell.null] [Cell.str "2", Cell.str "5"] = [(1, 2)] ∧
    pearsonPairs [Cell.str "1", Cell.null] [Cell.str "2", Cell.str "5"] = [(1, 2), (0, 5)] ∧
    calculatePearsonCorrelation [Cell.str "1", Cell.null] [Cell.str "2", Cell.str "5"]
      = CorrVal.coeff 2 (-3) 9 ∧
    CorrVal.coeff 2 (-3) 9 ≠ CorrVal.zero := by
  have e1 : jsToNum (Cell.str "1") = some 1 := by
    norm_num +decide [jsToNum, strToNum, strToNumCore, jsTrimList, jsSign, digitsToNat]
  have e2 : jsToNum (Cell.str "2") = some 2 := by
    norm_num +decide [jsToNum, strToNum, strToNumCore, jsTrimList, jsSign, digitsToNat]
  have e5 : jsToNum (Cell.str "5") = some 5 := by
    norm_num +decide [jsToNum, strToNum, strToNumCore, jsTrimList, jsSign, digitsToNat]
  have e0 : jsToNum Cell.null = some 0 := rfl
  have hp : pearsonPairs [Cell.str "1", Cell.null] [Cell.str "2", Cell.str "5"]
      = [(1, 2), (0, 5)] := by
    simp [pearsonPairs, jsAt, List.range_succ, e0, e1, e2, e5]
  refine ⟨?_, hp, ?_, by decide⟩
  · simp +decide [claimUsablePairs, e1, e2]
  · rw [calculatePearsonCorrelation, hp]
    norm_num

/-- C4, amended: the correlation engine computes each coefficient over the
rows where **both values are `Number`-coercible**: `undefined`, `NaN` and
non-numeric strings are excluded, while `null` and empty or
whitespace-only strings — although missing — are included with value 0;
if fewer than 2 pairs remain the coefficient is 0. -/
theorem c4_amended :
    (∀ x y, pearsonPairs x y = (x.zip y).filterMap (fun p =>
      match jsToNum p.1, jsToNum p.2 with
      | some a, some b => some (a, b)
      | _, _ => none)) ∧
    jsToNum Cell.null = some 0 ∧
    jsToNum (Cell.str "") = some 0 ∧
    jsToNum (Cell.str "  ") = some 0 ∧
    jsToNum Cell.undef = none ∧
    (∀ x y, (pearsonPairs x y).length < 2 →
      calculatePearsonCorrelation x y = CorrVal.zero) := by
  refine ⟨pearsonPairs_eq_zip, rfl, ?_, ?_, rfl, ?_⟩
  · norm_num +decide [jsToNum, strToNum, jsTrimList]
  · norm_num +decide [jsToNum, strToNum, jsTrimList]
  · intro x y h
    simp [calculatePearsonCorrelation, h]

/-- Witness for `c4_amended` at a concrete single-row input. -/
theorem c4_amended_witness :
    (pearsonPairs [Cell.null] [Cell.null]).length < 2 ∧
    calculatePearsonCorrelation [Cell.null] [Cell.null] = CorrVal.zero := by
  have hp : pearsonPairs [Cell.null] [Cell.null] = [(0, 0)] := by
    simp [pearsonPairs, jsAt, List.range_succ]
    rfl
  have hlen : (pearsonPairs [Cell.null] [Cell.null]).length < 2 := by
    rw [hp]
    decide
  exact ⟨hlen, c4_amended.2.2.2.2.2 _ _ hlen⟩

/-- The interpolation kernel of `calculatePercentile`, as a function of the
already computed fractional index. -/
def interpAt (sortedValues : List ℚ) (index : ℚ) : ℚ :=
  let lower := ⌊index⌋
  let upper := ⌈index⌉
  if lower = upper then sortedValues.getD lower.toNat 0
  else
    let weight := index - (lower : ℚ)
    sortedValues.getD lower.toNat 0 * (1 - weight) + sortedValues.getD upper.toNat 0 * weight

theorem calculatePercentile_eq_interpAt (s : List ℚ) (p : ℚ) :
    calculatePercentile s p = interpAt s (p / 100 * ((s.length : ℚ) - 1)) :=
  rfl

theorem interpAt_between {s : List ℚ} (hs : s.Sorted (· ≤ ·)) {idx : ℚ}
    (h0 : 0 ≤ idx) (h1 : idx ≤ (s.length : ℚ) - 1) :
    s.getD (⌊idx⌋).toNat 0 ≤ interpAt s idx ∧ interpAt s idx ≤ s.getD (⌈idx⌉).toNat 0 := by
  have hfl0 : (0 : ℤ) ≤ ⌊idx⌋ := Int.le_floor.mpr (by exact_mod_cast h0)
  have hceil : (⌈idx⌉ : ℤ) ≤ (s.length : ℤ) - 1 := by
    apply Int.ceil_le.mpr
    push_cast
    exact h1
  have hlen1 : 1 ≤ s.length := by
    by_contra hl
    push_neg at hl
    have hz : s.length = 0 := by omega
    rw [hz] at h1
    push_cast at h1
    linarith
  have hu_lt : (⌈idx⌉).toNat < s.length := by omega
  have hl_le_u : (⌊idx⌋).toNat ≤ (⌈idx⌉).toNat := by
    have := Int.floor_le_ceil idx
    omega
  have hl_lt : (⌊idx⌋).toNat < s.length := lt_of_le_of_lt hl_le_u hu_lt
  unfold interpAt
  by_cases hle : (⌊idx⌋ : ℤ) = ⌈idx⌉
  · rw [if_pos hle, hle]
    exact ⟨le_refl _, le_refl _⟩
  · rw [if_neg hle]
    dsimp only
    have hslu : s.getD (⌊idx⌋).toNat 0 ≤ s.getD (⌈idx⌉).toNat 0 :=
      getD_le_getD_of_sorted hs hl_le_u hu_lt
    have hw0 : 0 ≤ idx - (⌊idx⌋ : ℚ) := by
      have := Int.floor_le idx
      linarith
    have hw1 : idx - (⌊idx⌋ : ℚ) ≤ 1 := by
      have := Int.lt_floor_add_one idx
      push_cast at this
      linarith
    constructor
    · nlinarith [mul_nonneg hw0 (sub_nonneg.mpr hslu)]
    · nlinarith [mul_nonneg (sub_nonneg.mpr hw1) (sub_nonneg.mpr hslu)]

theorem interpAt_mono {s : List ℚ} (hs : s.Sorted (· ≤ ·)) {idx idx' : ℚ}
    (h0 : 0 ≤ idx) (hle : idx ≤ idx') (h1 : idx' ≤ (s.length : ℚ) - 1) :
    interpAt s idx ≤ interpAt s idx' := by
  have h0' : 0 ≤ idx' := le_trans h0 hle
  have h1i : idx ≤ (s.length : ℚ) - 1 := le_trans hle h1
  by_cases hcase : (⌈idx⌉ : ℤ) ≤ ⌊idx'⌋
  · have hb1 := (interpAt_between hs h0 h1i).2
    have hb2 := (interpAt_between hs h0' h1).1
    have hfl'lt : (⌊idx'⌋).toNat < s.length := by
      have hc' : (⌈idx'⌉ : ℤ) ≤ (s.length : ℤ) - 1 := by
        apply Int.ceil_le.mpr
        push_cast
        exact h1
      have h0f : (0 : ℤ) ≤ ⌊idx'⌋ := Int.le_floor.mpr (by exact_mod_cast h0')
      have := Int.floor_le_ceil idx'
      omega
    have hmid : s.getD (⌈idx⌉).toNat 0 ≤ s.getD (⌊idx'⌋).toNat 0 := by
      apply getD_le_getD_of_sorted hs ?_ hfl'lt
      have h0c : (0 : ℤ) ≤ ⌊idx⌋ := Int.le_floor.mpr (by exact_mod_cast h0)
      have h0f : (0 : ℤ) ≤ ⌊idx'⌋ := Int.le_floor.mpr (by exact_mod_cast h0')
      have := Int.floor_le_ceil idx
      omega
    exact le_trans hb1 (le_trans hmid hb2)
  · push_neg at hcase
    have hffmono : ⌊idx⌋ ≤ ⌊idx'⌋ := Int.floor_le_floor hle
    have hcf : ⌈idx⌉ ≤ ⌊idx⌋ + 1 := Int.ceil_le_floor_add_one idx
    have hLL : ⌊idx⌋ = ⌊idx'⌋ := by omega
    by_cases hint : (⌊idx⌋ : ℤ) = ⌈idx⌉
    · omega
    · by_cases hint2 : (⌊idx'⌋ : ℤ) = ⌈idx'⌉
      · have hidx2int : idx' = (⌊idx'⌋ : ℚ) := by
          have ha := Int.floor_le idx'
          have hb := Int.le_ceil idx'
          rw [← hint2] at hb
          linarith
        have heq : idx = idx' := by
          apply le_antisymm hle
          rw [hidx2int, ← hLL]
          exact Int.floor_le idx
        rw [heq]
      · have hc1 : (⌈idx⌉ : ℤ) = ⌊idx⌋ + 1 := by
          have := Int.floor_le_ceil idx
          omega
        have hc2 : (⌈idx'⌉ : ℤ) = ⌊idx'⌋ + 1 := by
          have ha := Int.floor_le_ceil idx'
          have hb := Int.ceil_le_floor_add_one idx'
          omega
        have h0fl : (0 : ℤ) ≤ ⌊idx⌋ := Int.le_floor.mpr (by exact_mod_cast h0)
        have hult : (⌊idx⌋ + 1 : ℤ).toNat < s.length := by
          have hc' : (⌈idx'⌉ : ℤ) ≤ (s.length : ℤ) - 1 := by
            apply Int.ceil_le.mpr
            push_cast
            exact h1
          omega
        have hslu : s.getD (⌊idx⌋).toNat 0 ≤ s.getD ((⌊idx⌋ + 1 : ℤ)).toNat 0 :=
          getD_le_getD_of_sorted hs (by omega) hult
        unfold interpAt
        rw [if_neg hint, if_neg hint2]
        dsimp only
        rw [hc2, hc1, ← hLL]
        have hww : idx - (⌊idx⌋ : ℚ) ≤ idx' - (⌊idx⌋ : ℚ) := by linarith
        nlinarith [mul_nonneg (sub_nonneg.mpr hww) (sub_nonneg.mpr hslu)]

theorem round2_mono {a b : ℚ} (h : a ≤ b) : round2 a ≤ round2 b := by
  unfold round2
  have : (⌊a * 100 + 1 / 2⌋ : ℤ) ≤ ⌊b * 100 + 1 / 2⌋ := by
    apply Int.floor_le_floor
    linarith
  have hc : ((⌊a * 100 + 1 / 2⌋ : ℤ) : ℚ) ≤ ((⌊b * 100 + 1 / 2⌋ : ℤ) : ℚ) := by
    exact_mod_cast this
  linarith

theorem calculateMedian_eq_p50 {s : List ℚ} (h : s ≠ []) :
    calculateMedian s = calculatePercentile s 50 := by
  rw [calculatePercentile_eq_interpAt]
  have hn : 1 ≤ s.length := List.length_pos.mpr h
  rcases Nat.even_or_odd s.length with he | ho
  · obtain ⟨k, hk⟩ := he
    have hk1 : 1 ≤ k := by omega
    have hidx : (50 : ℚ) / 100 * ((s.length : ℚ) - 1) = (k : ℚ) - 1 / 2 := by
      rw [hk]
      push_cast
      ring
    rw [hidx]
    have hfl : ⌊(k : ℚ) - 1 / 2⌋ = (k : ℤ) - 1 := by
      apply Int.floor_eq_iff.mpr
      constructor
      · push_cast
        linarith
      · push_cast
        linarith
    have hcl : ⌈(k : ℚ) - 1 / 2⌉ = (k : ℤ) := by
      apply Int.ceil_eq_iff.mpr
      constructor
      · push_cast
        linarith
      · push_cast
        linarith [hk1]
    unfold interpAt
    rw [hfl, hcl, if_neg (by omega)]
    dsimp only
    unfold calculateMedian
    have hmod : s.length % 2 = 0 := by omega
    rw [if_pos hmod]
    have hmid : s.length / 2 = k := by omega
    have ht1 : ((k : ℤ) - 1).toNat = k - 1 := by omega
    have ht2 : ((k : ℤ)).toNat = k := by omega
    rw [ht1, ht2, hmid]
    have hc : ((k : ℚ) - 1 / 2 - ((k : ℤ) - 1 : ℤ)) = 1 / 2 := by
      push_cast
      ring
    rw [hc]
    ring
  · obtain ⟨k, hk⟩ := ho
    have hidx : (50 : ℚ) / 100 * ((s.length : ℚ) - 1) = (k : ℚ) := by
      rw [hk]
      push_cast
      ring
    rw [hidx]
    unfold interpAt
    rw [Int.floor_natCast, Int.ceil_natCast, if_pos rfl]
    unfold calculateMedian
    have hmod : ¬(s.length % 2 = 0) := by omega
    rw [if_neg hmod]
    have hmid : s.length / 2 = k := by omega
    rw [hmid, Int.toNat_natCast]

/-- The sorted numeric values `calculateNumericalStats` works on. -/
def sortedNumericOf (values : List Cell) : List ℚ :=
  sortBy (fun a b => decide (a ≤ b)) (numericCoercibleValues values)

theorem calculatePercentile_nil (p : ℚ) : calculatePercentile [] p = 0 := by
  rw [calculatePercentile_eq_interpAt]
  simp only [interpAt]
  split_ifs
  · rfl
  · show (0 : ℚ) * _ + (0 : ℚ) * _ = 0
    ring

theorem calculateNumericalStats_proj (values : List Cell)
    (h : numericCoercibleValues values ≠ []) :
    (calculateNumericalStats values).min = (sortedNumericOf values).getD 0 0 ∧
    (calculateNumericalStats values).max
      = (sortedNumericOf values).getD ((sortedNumericOf values).length - 1) 0 ∧
    (calculateNumericalStats values).q1
      = round2 (calculatePercentile (sortedNumericOf values) 25) ∧
    (calculateNumericalStats values).median
      = round2 (calculateMedian (sortedNumericOf values)) ∧
    (calculateNumericalStats values).q3
      = round2 (calculatePercentile (sortedNumericOf values) 75) := by
  have hne : (numericCoercibleValues values).isEmpty = false := by
    cases hE : (numericCoercibleValues values).isEmpty
    · rfl
    · exact absurd (List.isEmpty_iff.mp hE) h
  unfold calculateNumericalStats
  dsimp only
  rw [hne]
  simp only [Bool.false_eq_true, if_false]
  have hlen : (sortBy (fun a b => decide (a ≤ b)) (numericCoercibleValues values)).length
      = (numericCoercibleValues values).length := length_sortBy _ _
  refine ⟨rfl, ?_, rfl, rfl, rfl⟩
  show (sortBy (fun a b => decide (a ≤ b)) (numericCoercibleValues values)).getD
      ((sortBy (fun a b => decide (a ≤ b)) (numericCoercibleValues values)).length - 1) 0 = _
  rfl

/-- C6, amended: for every numerical column the quartile chain holds
before the 2-decimal presentation rounding —
`min ≤ P25 ≤ P50 ≤ P75 ≤ max` over the sorted numeric values (degenerate
empty set included, where everything is 0) — and the rounded returned
values still satisfy `q1 ≤ median ≤ q3`; but the returned `min ≤ q1` and
`q3 ≤ max` may fail, because `q1`/`q3` are rounded while `min`/`max` are
not (see the counterexample). -/
theorem c6_amended (values : List Cell) :
    ((calculateNumericalStats values).min
        ≤ calculatePercentile (sortedNumericOf values) 25 ∧
     calculatePercentile (sortedNumericOf values) 25
        ≤ calculatePercentile (sortedNumericOf values) 50 ∧
     calculatePercentile (sortedNumericOf values) 50
        ≤ calculatePercentile (sortedNumericOf values) 75 ∧
     calculatePercentile (sortedNumericOf values) 75
        ≤ (calculateNumericalStats values).max) ∧
    ((calculateNumericalStats values).q1 ≤ (calculateNumericalStats values).median ∧
     (calculateNumericalStats values).median ≤ (calculateNumericalStats values).q3) := by
  by_cases h : numericCoercibleValues values = []
  · have hs0 : sortedNumericOf values = [] := by
      rw [sortedNumericOf, h]
      rfl
    have hz : calculateNumericalStats values
        = { mean := 0, median := 0, stdSq := 0, min := 0, max := 0, q1 := 0, q3 := 0,
            outliers := [] } := by
      simp [calculateNumericalStats, h]
    rw [hz, hs0, calculatePercentile_nil, calculatePercentile_nil, calculatePercentile_nil]
    norm_num
  · obtain ⟨hmin, hmax, hq1, hmed, hq3⟩ := calculateNumericalStats_proj values h
    set s := sortedNumericOf values with hsdef
    have hsorted : s.Sorted (· ≤ ·) := sortBy_sorted_q _
    have hlen : s.length = (numericCoercibleValues values).length := length_sortBy _ _
    have hn1 : 1 ≤ s.length := by
      rw [hlen]
      exact List.length_pos.mpr h
    have hsne : s ≠ [] := by
      intro hcon
      rw [hcon] at hn1
      exact absurd hn1 (by norm_num)
    have hnq : (1 : ℚ) ≤ (s.length : ℚ) := by exact_mod_cast hn1
    have hidx : ∀ p : ℚ, 0 ≤ p → p ≤ 100 →
        0 ≤ p / 100 * ((s.length : ℚ) - 1) ∧
        p / 100 * ((s.length : ℚ) - 1) ≤ (s.length : ℚ) - 1 := by
      intro p hp0 hp1
      constructor
      · apply mul_nonneg (by linarith) (by linarith)
      · nlinarith
    have hmono : ∀ p q : ℚ, 0 ≤ p → p ≤ q → q ≤ 100 →
        calculatePercentile s p ≤ calculatePercentile s q := by
      intro p q hp0 hpq hq1b
      rw [calculatePercentile_eq_interpAt, calculatePercentile_eq_interpAt]
      apply interpAt_mono hsorted (hidx p hp0 (le_trans hpq hq1b)).1 ?_
        (hidx q (le_trans hp0 hpq) hq1b).2
      apply mul_le_mul_of_nonneg_right ?_ (by linarith)
      linarith
    refine ⟨⟨?_, hmono 25 50 (by norm_num) (by norm_num) (by norm_num),
             hmono 50 75 (by norm_num) (by norm_num) (by norm_num), ?_⟩, ?_, ?_⟩
    · rw [hmin, calculatePercentile_eq_interpAt]
      have hb := (interpAt_between hsorted (hidx 25 (by norm_num) (by norm_num)).1
        (hidx 25 (by norm_num) (by norm_num)).2).1
      refine le_trans ?_ hb
      apply getD_le_getD_of_sorted hsorted (Nat.zero_le _)
      have h0f : (0 : ℤ) ≤ ⌊(25 : ℚ) / 100 * ((s.length : ℚ) - 1)⌋ :=
        Int.le_floor.mpr (by exact_mod_cast (hidx 25 (by norm_num) (by norm_num)).1)
      have hcl : (⌈(25 : ℚ) / 100 * ((s.length : ℚ) - 1)⌉ : ℤ) ≤ (s.length : ℤ) - 1 := by
        apply Int.ceil_le.mpr
        push_cast
        exact (hidx 25 (by norm_num) (by norm_num)).2
      have := Int.floor_le_ceil ((25 : ℚ) / 100 * ((s.length : ℚ) - 1))
      omega
    · rw [hmax, calculatePercentile_eq_interpAt]
      have hb := (interpAt_between hsorted (hidx 75 (by norm_num) (by norm_num)).1
        (hidx 75 (by norm_num) (by norm_num)).2).2
      refine le_trans hb ?_
      apply getD_le_getD_of_sorted hsorted ?_ (by omega)
      have hcl : (⌈(75 : ℚ) / 100 * ((s.length : ℚ) - 1)⌉ : ℤ) ≤ (s.length : ℤ) - 1 := by
        apply Int.ceil_le.mpr
        push_cast
        exact (hidx 75 (by norm_num) (by norm_num)).2
      omega
    · rw [hq1, hmed, calculateMedian_eq_p50 hsne]
      exact round2_mono (hmono 25 50 (by norm_num) (by norm_num) (by norm_num))
    · rw [hmed, hq3, calculateMedian_eq_p50 hsne]
      exact round2_mono (hmono 50 75 (by norm_num) (by norm_num) (by norm_num))

/-- C6, counterexample: on the column `["0.004"]` the returned statistics
have `min = 0.004` (min/max are not rounded) but `q1 = round2(0.004) = 0`,
so the claimed `min ≤ q1` fails on the returned values. -/
theorem c6_counterexample :
    (calculateNumericalStats [Cell.str "0.004"]).q1
      < (calculateNumericalStats [Cell.str "0.004"]).min := by
  have he : jsToNum (Cell.str "0.004") = some (1 / 250) := by
    norm_num +decide [jsToNum, strToNum, strToNumCore, jsTrimList, jsSign, digitsToNat]
  have hnum : numericCoercibleValues [Cell.str "0.004"] = [1 / 250] := by
    simp [numericCoercibleValues, he]
  have hproj := calculateNumericalStats_proj [Cell.str "0.004"] (by rw [hnum]; simp)
  have hsort : sortedNumericOf [Cell.str "0.004"] = [1 / 250] := by
    rw [sortedNumericOf, hnum]
    rfl
  rw [hproj.2.2.1, hproj.1, hsort]
  have hp : calculatePercentile [(1 : ℚ) / 250] 25 = 1 / 250 := by
    rw [calculatePercentile_eq_interpAt]
    norm_num [interpAt]
  rw [hp]
  show round2 (1 / 250) < (1 : ℚ) / 250
  rw [round2]
  rw [show (1 : ℚ) / 250 * 100 + 1 / 2 = 9 / 10 by ring]
  rw [show ⌊(9 : ℚ) / 10⌋ = 0 by
    apply Int.floor_eq_iff.mpr
    norm_num]
  norm_num

/-- C10, counterexample: the `price` column `["10", "-5", "n/a", "20"]`
does **not** pass the ≥0-majority heuristic (only 2 of its 3
numeric-parseable values are ≥ 0, and 2/3 ≤ 0.8), so the Normalizer never
flips `-5`; after cleaning the values are `[10, -5, 10, 20]` — the missing
cell is imputed with the median 10 of `{-5, 10, 20}` — not the claimed
`[10, 5, 10, 20]`. -/
theorem c10_counterexample :
    isPriceOrQuantityColumn [Cell.str "10", Cell.str "-5", Cell.str "n/a", Cell.str "20"]
      = false ∧
    (cleanColumn { name := "price"
                   type := "numerical"
                   values := [Cell.str "10", Cell.str "-5", Cell.str "n/a", Cell.str "20"]
                   missingCount := 0
                   missingRate := 0 } 4).1.values
      = [Cell.num (some 10), Cell.num (some (-5)), Cell.num (some 10), Cell.num (some 20)] ∧
    Cell.num (some (-5)) ≠ Cell.num (some 5) := by
  have e10 : jsToNum (Cell.str "10") = some 10 := by
    norm_num +decide [jsToNum, strToNum, strToNumCore, jsTrimList, jsSign, digitsToNat]
  have em5 : jsToNum (Cell.str "-5") = some (-5) := by
    norm_num +decide [jsToNum, strToNum, strToNumCore, jsTrimList, jsSign, digitsToNat]
  have e20 : jsToNum (Cell.str "20") = some 20 := by
    norm_num +decide [jsToNum, strToNum, strToNumCore, jsTrimList, jsSign, digitsToNat]
  have ena : jsToNum (Cell.str "n/a") = none := by
    norm_num +decide [jsToNum, strToNum, strToNumCore, jsTrimList, jsSign]
  have hflip : isPriceOrQuantityColumn
      [Cell.str "10", Cell.str "-5", Cell.str "n/a", Cell.str "20"] = false := by
    rw [isPriceOrQuantityColumn]
    simp +decide [e10, em5, e20, ena]
  have hfix : fixErroneousValues
      [Cell.str "10", Cell.str "-5", Cell.str "n/a", Cell.str "20"] "numerical"
      = ([Cell.str "10", Cell.str "-5", Cell.null, Cell.str "20"], 1) := by
    rw [fixErroneousValues, hflip]
    decide
  have pf10 : convertFloatVal (Cell.str "10") = Cell.num (some 10) := by
    norm_num +decide [convertFloatVal, jsParseFloat, jsTrim, jsTrimList, jsSign, digitsToNat]
  have pfm5 : convertFloatVal (Cell.str "-5") = Cell.num (some (-5)) := by
    norm_num +decide [convertFloatVal, jsParseFloat, jsTrim, jsTrimList, jsSign, digitsToNat]
  have pf20 : convertFloatVal (Cell.str "20") = Cell.num (some 20) := by
    norm_num +decide [convertFloatVal, jsParseFloat, jsTrim, jsTrimList, jsSign, digitsToNat]
  have hconv : convertTypes [Cell.str "10", Cell.str "-5", Cell.null, Cell.str "20"]
      { name := "price"
        type := "numerical"
        values := [Cell.str "10", Cell.str "-5", Cell.str "n/a", Cell.str "20"]
        missingCount := 0
        missingRate := 0 }
      = ([Cell.num (some 10), Cell.num (some (-5)), Cell.null, Cell.num (some 20)],
         "numerical", true) := by
    rw [convertTypes]
    simp +decide [pf10, pfm5, pf20, show convertFloatVal Cell.null = Cell.null from rfl]
  have hsort : sortBy leJs [some (10 : ℚ), some (-5), some 20] = [some (-5), some 10, some 20] := by
    have c1 : leJs (some (20 : ℚ)) (some (-5)) = false := by
      simp [leJs]
      norm_num
    have c2 : leJs (some (-5 : ℚ)) (some 20) = true := by
      simp [leJs]
      norm_num
    have c3 : leJs (some (10 : ℚ)) (some (-5)) = false := by
      simp [leJs]
      norm_num
    have c4 : leJs (some (10 : ℚ)) (some 20) = true := by
      simp [leJs]
      norm_num
    simp [sortBy, insertLe, c1, c2, c3, c4]
  have himp : imputeMissingValues
      [Cell.num (some 10), Cell.num (some (-5)), Cell.null, Cell.num (some 20)] "numerical"
      = ([Cell.num (some 10), Cell.num (some (-5)), Cell.num (some 10), Cell.num (some 20)],
         1, "median") := by
    decide
  refine ⟨hflip, ?_, by decide⟩
  rw [cleanColumn]
  simp [hfix, hconv, himp]

/-- C10, amended: for the numerical column `price` with raw values
`["10", "-5", "n/a", "20"]`: the ≥0-majority heuristic is **not** passed
(2 of 3 numeric values are ≥ 0 and 2/3 ≤ 0.8), so `-5` is not flipped;
`"n/a"` is converted to missing and imputed with the median 10 of
`{-5, 10, 20}`; the final values are `[10, -5, 10, 20]`, the final type is
`numerical`, `erroneousValuesFixed = 1 ≥ 1` and `valuesImputed = 1`. -/
theorem c10_amended :
    isPriceOrQuantityColumn [Cell.str "10", Cell.str "-5", Cell.str "n/a", Cell.str "20"]
      = false ∧
    cleanColumn { name := "price"
                  type := "numerical"
                  values := [Cell.str "10", Cell.str "-5", Cell.str "n/a", Cell.str "20"]
                  missingCount := 0
                  missingRate := 0 } 4
      = ({ name := "price"
           type := "numerical"
           values := [Cell.num (some 10), Cell.num (some (-5)), Cell.num (some 10),
                      Cell.num (some 20)]
           missingCount := 0
           missingRate := 0 },
         { columnName := "price"
           originalType := "numerical"
           finalType := "numerical"
           missingValuesImputed := 1
           erroneousValuesFixed := 1
           typeConverted := true
           imputationMethod := some "median" }) := by
  have e10 : jsToNum (Cell.str "10") = some 10 := by
    norm_num +decide [jsToNum, strToNum, strToNumCore, jsTrimList, jsSign, digitsToNat]
  have em5 : jsToNum (Cell.str "-5") = some (-5) := by
    norm_num +decide [jsToNum, strToNum, strToNumCore, jsTrimList, jsSign, digitsToNat]
  have e20 : jsToNum (Cell.str "20") = some 20 := by
    norm_num +decide [jsToNum, strToNum, strToNumCore, jsTrimList, jsSign, digitsToNat]
  have ena : jsToNum (Cell.str "n/a") = none := by
    norm_num +decide [jsToNum, strToNum, strToNumCore, jsTrimList, jsSign]
  have hflip : isPriceOrQuantityColumn
      [Cell.str "10", Cell.str "-5", Cell.str "n/a", Cell.str "20"] = false := by
    rw [isPriceOrQuantityColumn]
    simp +decide [e10, em5, e20, ena]
  have hfix : fixErroneousValues
      [Cell.str "10", Cell.str "-5", Cell.str "n/a", Cell.str "20"] "numerical"
      = ([Cell.str "10", Cell.str "-5", Cell.null, Cell.str "20"], 1) := by
    rw [fixErroneousValues, hflip]
    decide
  have pf10 : convertFloatVal (Cell.str "10") = Cell.num (some 10) := by
    norm_num +decide [convertFloatVal, jsParseFloat, jsTrim, jsTrimList, jsSign, digitsToNat]
  have pfm5 : convertFloatVal (Cell.str "-5") = Cell.num (some (-5)) := by
    norm_num +decide [convertFloatVal, jsParseFloat, jsTrim, jsTrimList, jsSign, digitsToNat]
  have pf20 : convertFloatVal (Cell.str "20") = Cell.num (some 20) := by
    norm_num +decide [convertFloatVal, jsParseFloat, jsTrim, jsTrimList, jsSign, digitsToNat]
  have hconv : convertTypes [Cell.str "10", Cell.str "-5", Cell.null, Cell.str "20"]
      { name := "price"
        type := "numerical"
        values := [Cell.str "10", Cell.str "-5", Cell.str "n/a", Cell.str "20"]
        missingCount := 0
        missingRate := 0 }
      = ([Cell.num (some 10), Cell.num (some (-5)), Cell.null, Cell.num (some 20)],
         "numerical", true) := by
    rw [convertTypes]
    simp +decide [pf10, pfm5, pf20, show convertFloatVal Cell.null = Cell.null from rfl]
  have himp : imputeMissingValues
      [Cell.num (some 10), Cell.num (some (-5)), Cell.null, Cell.num (some 20)] "numerical"
      = ([Cell.num (some 10), Cell.num (some (-5)), Cell.num (some 10), Cell.num (some 20)],
         1, "median") := by
    decide
  refine ⟨hflip, ?_⟩
  rw [cleanColumn]
  simp +decide [hfix, hconv, himp]

/-- The conversion route `convertTypes` takes, determined by the column
name and recorded type. -/
inductive Route where
  | price : Route
  | qty : Route
  | date : Route
  | keep : Route
deriving DecidableEq, Repr

/-- Which branch of `convertTypes` fires (price first, then quantity, then
date, else none). -/
def routeOf (name ty : String) : Route :=
  let n := jsToLower name
  if isPriceColumn n then Route.price
  else if isQuantityColumn n then Route.qty
  else if isDateColumn n ∨ ty = "date" then Route.date
  else Route.keep

theorem convertTypes_eq_route (values : List Cell) (col : DataColumn) :
    convertTypes values col =
      match routeOf col.name col.type with
      | Route.price => (values.map convertFloatVal, "numerical", true)
      | Route.qty => (values.map convertIntVal, "numerical", true)
      | Route.date => (values.map convertDateVal, "date", true)
      | Route.keep => (values, col.type, false) := by
  unfold convertTypes routeOf
  dsimp only
  split_ifs <;> rfl

/-- The final type `cleanColumn` records for each route. -/
def finalTypeOf (r : Route) (ty : String) : String :=
  match r with
  | Route.price => "numerical"
  | Route.qty => "numerical"
  | Route.date => "date"
  | Route.keep => ty

theorem routeOf_finalType (name ty : String) :
    routeOf name (finalTypeOf (routeOf name ty) ty) = routeOf name ty := by
  unfold routeOf finalTypeOf
  dsimp only
  by_cases h1 : isPriceColumn (jsToLower name) = true
  · simp [h1]
  · by_cases h2 : isQuantityColumn (jsToLower name) = true
    · simp [h1, h2]
    · by_cases h3 : isDateColumn (jsToLower name) = true
      · simp [h1, h2, h3]
      · by_cases h4 : ty = "date"
        · simp [h1, h2, h3, h4]
        · simp [h1, h2, h3, h4]

theorem routeOf_keep_ty {name ty : String} (h : routeOf name ty = Route.keep) :
    ty ≠ "date" := by
  intro hd
  unfold routeOf at h
  dsimp only at h
  split_ifs at h with h1 h2 h3
  exact h3 (Or.inr hd)

/-- The characters a rendered number or an ISO date can contain. -/
def numChar (c : Char) : Bool :=
  c ∈ ['0', '1', '2', '3', '4', '5', '6', '7', '8', '9', '-', '.']

theorem lowerChar_of_numChar {c : Char} (h : numChar c = true) : lowerChar c = c := by
  simp only [numChar, List.mem_cons, decide_eq_true_eq, List.mem_singleton,
    List.not_mem_nil, or_false] at h
  rcases h with rfl | rfl | rfl | rfl | rfl | rfl | rfl | rfl | rfl | rfl | rfl | rfl <;> decide

theorem isWsChar_of_numChar {c : Char} (h : numChar c = true) : isWsChar c = false := by
  simp only [numChar, List.mem_cons, decide_eq_true_eq, List.mem_singleton,
    List.not_mem_nil, or_false] at h
  rcases h with rfl | rfl | rfl | rfl | rfl | rfl | rfl | rfl | rfl | rfl | rfl | rfl <;> decide

theorem numChar_of_isDigit {c : Char} (h : c.isDigit = true) : numChar c = true := by
  have h1 : 48 ≤ c.toNat ∧ c.toNat ≤ 57 := by
    simp only [Char.isDigit, decide_eq_true_eq, Bool.and_eq_true] at h
    exact ⟨h.1, h.2⟩
  have hv : c = Char.ofNat c.toNat := by
    rw [Char.ofNat_toNat]
  rw [hv]
  set n := c.toNat with hn
  obtain ⟨hl, hu⟩ := h1
  interval_cases n <;> decide

theorem dropWhile_eq_self_of_all {l : List Char} (h : ∀ c ∈ l, isWsChar c = false) :
    l.dropWhile isWsChar = l := by
  cases l with
  | nil => rfl
  | cons c t =>
    rw [List.dropWhile_cons, h c (List.mem_cons_self ..)]
    simp

theorem jsTrimList_eq_self_of_all {l : List Char} (h : ∀ c ∈ l, isWsChar c = false) :
    jsTrimList l = l := by
  unfold jsTrimList
  rw [dropWhile_eq_self_of_all h, dropWhile_eq_self_of_all (by
    intro c hc
    exact h c (List.mem_reverse.mp hc)), List.reverse_reverse]

theorem jsTrimList_eq_nil_iff {l : List Char} :
    jsTrimList l = [] ↔ ∀ c ∈ l, isWsChar c = true := by
  unfold jsTrimList
  constructor
  · intro h c hc
    have h1 : (l.dropWhile isWsChar).reverse.dropWhile isWsChar = [] := by
      rwa [List.reverse_eq_nil_iff] at h
    have h2 : ∀ c ∈ (l.dropWhile isWsChar).reverse, isWsChar c = true :=
      List.dropWhile_eq_nil_iff.mp h1
    have h3 : ∀ c ∈ l.dropWhile isWsChar, isWsChar c = true := by
      intro c hc2
      exact h2 c (List.mem_reverse.mpr hc2)
    have h4 : ∀ c ∈ l.takeWhile isWsChar, isWsChar c = true := by
      intro c hc2
      exact List.mem_takeWhile_imp hc2
    rw [← List.takeWhile_append_dropWhile (p := isWsChar) (l := l)] at hc
    rcases List.mem_append.mp hc with hc2 | hc2
    · exact h4 c hc2
    · exact h3 c hc2
  · intro h
    have h1 : l.dropWhile isWsChar = [] := List.dropWhile_eq_nil_iff.mpr h
    rw [h1]
    rfl

theorem natDigitChars_digits (n : ℕ) : ∀ c ∈ natDigitChars n, c.isDigit = true := by
  intro c hc
  unfold natDigitChars at hc
  split_ifs at hc with h
  · rcases List.mem_singleton.mp hc with rfl
    decide
  · rcases List.mem_map.mp hc with ⟨d, hd, rfl⟩
    have hd10 : d < 10 := Nat.digits_lt_base (by norm_num) (List.mem_reverse.mp hd)
    interval_cases d <;> decide

theorem natDigitChars_ne_nil (n : ℕ) : natDigitChars n ≠ [] := by
  unfold natDigitChars
  split_ifs with h
  · simp
  · simp only [ne_eq, List.map_eq_nil_iff, List.reverse_eq_nil_iff]
    exact Nat.digits_ne_nil_iff_ne_zero.mpr h

theorem fracDigitChars_digits : ∀ (fuel : ℕ) (r : ℚ), 0 ≤ r → r < 1 →
    ∀ c ∈ fracDigitChars r fuel, c.isDigit = true := by
  intro fuel
  induction fuel with
  | zero => intro r _ _ c hc; cases hc
  | succ m ih =>
    intro r h0 h1 c hc
    rw [fracDigitChars] at hc
    split_ifs at hc with hr
    · cases hc
    · rcases List.mem_cons.mp hc with rfl | hc2
      · have hd0 : (0 : ℤ) ≤ ⌊r * 10⌋ := Int.le_floor.mpr (by push_cast; linarith)
        have hd9 : ⌊r * 10⌋ ≤ 9 := by
          have : ⌊r * 10⌋ < 10 := Int.floor_lt.mpr (by push_cast; linarith)
          omega
        have h9 : ⌊r * 10⌋.toNat ≤ 9 := by omega
        set d := ⌊r * 10⌋.toNat
        interval_cases d <;> decide
      · apply ih (r * 10 - ⌊r * 10⌋) (by
          have := Int.floor_le (r * 10)
          linarith) (by
          have := Int.lt_floor_add_one (r * 10)
          push_cast at *
          linarith) c hc2

theorem numToString_chars (q : ℚ) : ∀ c ∈ (numToString q).data, numChar c = true := by
  intro c hc
  unfold numToString at hc
  dsimp only at hc
  rcases List.mem_append.mp hc with hc1 | hc2
  · rcases List.mem_append.mp hc1 with hc3 | hc4
    · split_ifs at hc3
      · rcases List.mem_singleton.mp hc3 with rfl
        decide
      · cases hc3
    · exact numChar_of_isDigit (natDigitChars_digits _ c hc4)
  · split_ifs at hc2
    · cases hc2
    · rcases List.mem_cons.mp hc2 with rfl | hc3
      · decide
      · apply numChar_of_isDigit
        apply fracDigitChars_digits 17 (|q| - ⌊|q|⌋) ?_ ?_ c hc3
        · have := Int.floor_le |q|
          linarith
        · have := Int.lt_floor_add_one |q|
          linarith

theorem numToString_has_digit (q : ℚ) : ∃ c ∈ (numToString q).data, c.isDigit = true := by
  obtain ⟨c, t, hct⟩ := List.exists_cons_of_ne_nil (natDigitChars_ne_nil ⌊|q|⌋.toNat)
  refine ⟨c, ?_, natDigitChars_digits _ c (by rw [hct]; exact List.mem_cons_self ..)⟩
  unfold numToString
  dsimp only
  apply List.mem_append.mpr
  apply Or.inl
  apply List.mem_append.mpr
  apply Or.inr
  rw [hct]
  exact List.mem_cons_self ..

theorem safeString_not_sentinel (s : String) (hchars : ∀ c ∈ s.data, numChar c = true)
    (hdig : ∃ c ∈ s.data, c.isDigit = true) : sentinelCheck (Cell.str s) = false := by
  obtain ⟨d⟩ := s
  unfold sentinelCheck jsToString
  have hlow : jsToLower ⟨d⟩ = ⟨d⟩ := by
    show (⟨d.map lowerChar⟩ : String) = ⟨d⟩
    congr 1
    calc List.map lowerChar d
        = List.map id d := List.map_congr_left (fun c hc => lowerChar_of_numChar (hchars c hc))
      _ = d := List.map_id d
  rw [hlow]
  have htrim : jsTrim ⟨d⟩ = ⟨d⟩ := by
    show (⟨jsTrimList d⟩ : String) = ⟨d⟩
    congr 1
    exact jsTrimList_eq_self_of_all (fun c hc => isWsChar_of_numChar (hchars c hc))
  rw [htrim]
  by_contra hcon
  rw [Bool.not_eq_false] at hcon
  have hmem : (⟨d⟩ : String) ∈ sentinelList := by
    simpa using hcon
  obtain ⟨c, hcmem, hcdig⟩ := hdig
  have hnod : ∀ s2 ∈ sentinelList, ∀ c ∈ s2.data, c.isDigit = false := by decide
  have := hnod ⟨d⟩ hmem c hcmem
  rw [this] at hcdig
  cases hcdig

theorem sentinelCheck_num (x : JsNum) : sentinelCheck (Cell.num x) = false := by
  cases x with
  | none => decide
  | some q =>
    have h : sentinelCheck (Cell.str (numToString q)) = false :=
      safeString_not_sentinel _ (numToString_chars q) (numToString_has_digit q)
    exact h

theorem sentinelCheck_bool (b : Bool) : sentinelCheck (Cell.bool b) = false := by
  cases b <;> decide

theorem sentinelCheck_str_jsToString (v : Cell) :
    sentinelCheck (Cell.str (jsToString v)) = sentinelCheck v := rfl

theorem isMissing_str_numToString (q : ℚ) :
    isMissing (Cell.str (numToString q)) = false := by
  show (jsTrim (numToString q) == "") = false
  obtain ⟨c, hcmem, hcdig⟩ := numToString_has_digit q
  have htrim : jsTrim (numToString q) = numToString q := by
    show (⟨jsTrimList (numToString q).data⟩ : String) = _
    rw [jsTrimList_eq_self_of_all
      (fun c hc => isWsChar_of_numChar (numToString_chars q c hc))]
  rw [htrim]
  have hne : (numToString q).data ≠ [] := List.ne_nil_of_mem hcmem
  simp only [beq_eq_false_iff_ne, ne_eq]
  intro hcon
  apply hne
  have := congrArg String.data hcon
  simpa using this

theorem isMissing_str_jsToString {v : Cell} (h : isMissing v = false) :
    isMissing (Cell.str (jsToString v)) = false := by
  cases v with
  | null => cases h
  | undef => cases h
  | str s => exact h
  | num x =>
    cases x with
    | none => decide
    | some q => exact isMissing_str_numToString q
  | bool b => cases b <;> decide

theorem jsTrim_eq_self {s : String} (h : ∀ c ∈ s.data, isWsChar c = false) :
    jsTrim s = s := by
  obtain ⟨d⟩ := s
  show (⟨jsTrimList d⟩ : String) = ⟨d⟩
  rw [jsTrimList_eq_self_of_all h]

theorem isMissing_str_of {s : String} (h : ∀ c ∈ s.data, isWsChar c = false)
    (hne : s.data ≠ []) : isMissing (Cell.str s) = false := by
  show (jsTrim s == "") = false
  rw [jsTrim_eq_self h]
  simp only [beq_eq_false_iff_ne, ne_eq]
  intro hcon
  exact hne (by simpa using congrArg String.data hcon)

theorem isoDate_shape {s : String} (h : isIsoDate s = true) :
    (∀ c ∈ s.data, numChar c = true) ∧ (∃ c ∈ s.data, c.isDigit = true) := by
  unfold isIsoDate at h
  split at h
  · rename_i y1 y2 y3 y4 m1 m2 d1 d2 heq
    simp only [Bool.and_eq_true, List.all_eq_true, decide_eq_true_eq] at h
    obtain ⟨⟨⟨⟨hall, _⟩, _⟩, _⟩, _⟩ := h
    have hdigs : ∀ x ∈ [y1, y2, y3, y4, m1, m2, d1, d2], x.isDigit = true := hall
    constructor
    · intro c hc
      rw [heq] at hc
      simp only [List.mem_cons, List.not_mem_nil, or_false] at hc
      rcases hc with rfl | rfl | rfl | rfl | rfl | rfl | rfl | rfl | rfl | rfl
      · exact numChar_of_isDigit (hdigs _ (by simp))
      · exact numChar_of_isDigit (hdigs _ (by simp))
      · exact numChar_of_isDigit (hdigs _ (by simp))
      · exact numChar_of_isDigit (hdigs _ (by simp))
      · decide
      · exact numChar_of_isDigit (hdigs _ (by simp))
      · exact numChar_of_isDigit (hdigs _ (by simp))
      · decide
      · exact numChar_of_isDigit (hdigs _ (by simp))
      · exact numChar_of_isDigit (hdigs _ (by simp))
    · refine ⟨y1, ?_, hdigs _ (by simp)⟩
      rw [heq]
      simp
  · cases h

theorem iso_not_missing {s : String} (h : isIsoDate s = true) :
    isMissing (Cell.str s) = false := by
  obtain ⟨hchars, hdig⟩ := isoDate_shape h
  obtain ⟨c, hcmem, _⟩ := hdig
  exact isMissing_str_of (fun c hc => isWsChar_of_numChar (hchars c hc))
    (List.ne_nil_of_mem hcmem)

theorem iso_not_sentinel {s : String} (h : isIsoDate s = true) :
    sentinelCheck (Cell.str s) = false := by
  obtain ⟨hchars, hdig⟩ := isoDate_shape h
  exact safeString_not_sentinel s hchars hdig

/-- A finite JavaScript number cell — the shape every value of a
price/quantity column has after a cleaning pass. -/
def numVal (v : Cell) : Prop := ∃ q : ℚ, v = Cell.num (some q)

/-- An ISO date string cell — the shape every value of a date column has
after a cleaning pass. -/
def isoVal (v : Cell) : Prop := ∃ s, v = Cell.str s ∧ isIsoDate s = true

/-- Sentinel-free cell — what an unconverted column's values satisfy after
a cleaning pass. -/
def cleanVal (v : Cell) : Prop := sentinelCheck v = false

/-- The invariant a value of a column routed through `r` satisfies after
one cleaning pass (when it is not missing). -/
def GoodVal : Route → Cell → Prop
  | Route.price => numVal
  | Route.qty => numVal
  | Route.date => isoVal
  | Route.keep => cleanVal

/-- Every value is missing, or non-missing and good. -/
def MixedCol (g : Cell → Prop) (values : List Cell) : Prop :=
  ∀ v ∈ values, isMissing v = true ∨ (isMissing v = false ∧ g v)

/-- Either every value is missing, or every value is non-missing and
good — the state of a column after one cleaning pass. -/
def StableCol (g : Cell → Prop) (values : List Cell) : Prop :=
  (∀ v ∈ values, isMissing v = true) ∨ ∀ v ∈ values, isMissing v = false ∧ g v

theorem convertFloatVal_mixed (v : Cell) :
    isMissing (convertFloatVal v) = true ∨
      (isMissing (convertFloatVal v) = false ∧ numVal (convertFloatVal v)) := by
  unfold convertFloatVal
  by_cases hm : isMissing v = true
  · rw [if_pos hm]
    exact Or.inl hm
  · rw [if_neg hm]
    cases v with
    | null => exact absurd rfl hm
    | undef => exact absurd rfl hm
    | str s =>
      dsimp only
      split
      · exact Or.inr ⟨rfl, _, rfl⟩
      · exact Or.inl rfl
    | num x =>
      cases x with
      | none => exact Or.inl rfl
      | some q => exact Or.inr ⟨rfl, q, rfl⟩
    | bool b => exact Or.inl rfl

theorem convertIntVal_mixed (v : Cell) :
    isMissing (convertIntVal v) = true ∨
      (isMissing (convertIntVal v) = false ∧ numVal (convertIntVal v)) := by
  unfold convertIntVal
  by_cases hm : isMissing v = true
  · rw [if_pos hm]
    exact Or.inl hm
  · rw [if_neg hm]
    cases v with
    | null => exact absurd rfl hm
    | undef => exact absurd rfl hm
    | str s =>
      dsimp only
      split
      · exact Or.inr ⟨rfl, _, rfl⟩
      · exact Or.inl rfl
    | num x =>
      cases x with
      | none => exact Or.inl rfl
      | some q => exact Or.inr ⟨rfl, _, rfl⟩
    | bool b => exact Or.inl rfl

theorem convertDateVal_mixed (v : Cell) :
    isMissing (convertDateVal v) = true ∨
      (isMissing (convertDateVal v) = false ∧ isoVal (convertDateVal v)) := by
  unfold convertDateVal
  by_cases hm : isMissing v = true
  · rw [if_pos hm]
    exact Or.inl hm
  · rw [if_neg hm]
    cases v with
    | null => exact absurd rfl hm
    | undef => exact absurd rfl hm
    | str s =>
      dsimp only
      by_cases hiso : isIsoDate s = true
      · rw [if_pos hiso]
        exact Or.inr ⟨iso_not_missing hiso, s, rfl, hiso⟩
      · rw [if_neg hiso]
        exact Or.inl rfl
    | num x => exact Or.inl rfl
    | bool b => exact Or.inl rfl

theorem fixValue_fst_mixed (flipOk : Bool) (ty : String) (v : Cell) :
    isMissing (fixValue flipOk ty v).1 = true ∨
      (isMissing (fixValue flipOk ty v).1 = false ∧ cleanVal (fixValue flipOk ty v).1) := by
  unfold fixValue
  by_cases hm : isMissing v = true
  · rw [if_pos hm]
    exact Or.inl hm
  · rw [Bool.not_eq_true] at hm
    rw [if_neg (by simp [hm])]
    by_cases hs : sentinelCheck v = true
    · rw [if_pos hs]
      exact Or.inl rfl
    · rw [Bool.not_eq_true] at hs
      rw [if_neg (by simp [hs])]
      split_ifs with hn
      · split
        · split_ifs with hq
          · exact Or.inr ⟨rfl, sentinelCheck_num _⟩
          · exact Or.inr ⟨hm, hs⟩
        · exact Or.inr ⟨hm, hs⟩
      · exact Or.inr ⟨hm, hs⟩

theorem fixValue_numVal (flipOk : Bool) (ty : String) {v : Cell} (h : numVal v) :
    isMissing (fixValue flipOk ty v).1 = false ∧ numVal (fixValue flipOk ty v).1 := by
  obtain ⟨q, rfl⟩ := h
  unfold fixValue
  rw [if_neg (by simp [isMissing]), if_neg (by simp [sentinelCheck_num])]
  split_ifs with hn
  · dsimp only [jsToNum]
    split_ifs with hq
    · exact ⟨rfl, -q, rfl⟩
    · exact ⟨rfl, q, rfl⟩
  · exact ⟨rfl, q, rfl⟩

theorem fixValue_isoVal (flipOk : Bool) {v : Cell} (h : isoVal v) :
    (fixValue flipOk "date" v).1 = v := by
  obtain ⟨s, rfl, hiso⟩ := h
  unfold fixValue
  rw [if_neg (by simp [iso_not_missing hiso]), if_neg (by simp [iso_not_sentinel hiso]),
    if_neg (by rintro ⟨h1, -⟩; exact absurd h1 (by decide))]

theorem fixValue_nonmissing (flipOk : Bool) (ty : String) {v : Cell}
    (hm : isMissing v = false) (hs : sentinelCheck v = false) :
    isMissing (fixValue flipOk ty v).1 = false := by
  unfold fixValue
  rw [if_neg (by simp [hm]), if_neg (by simp [hs])]
  split_ifs with hn
  · split
    · split_ifs with hq
      · rfl
      · exact hm
    · exact hm
  · exact hm

theorem getD_mem {α : Type} {l : List α} {i : ℕ} (h : i < l.length) (d : α) :
    l.getD i d ∈ l := by
  rw [List.getD_eq_getElem?_getD, List.getElem?_eq_getElem h, Option.getD_some]
  exact List.getElem_mem h

theorem medianJs_some {s : List JsNum} (hne : s ≠ [])
    (h : ∀ x ∈ s, ∃ q : ℚ, x = some q) : ∃ q : ℚ, medianJsOfSorted s = some q := by
  unfold medianJsOfSorted
  have hlen : 0 < s.length := List.length_pos.mpr hne
  split_ifs with he
  · have h2 : 2 ≤ s.length := by omega
    have hi1 : s.length / 2 - 1 < s.length := by omega
    have hi2 : s.length / 2 < s.length := by omega
    obtain ⟨a, ha⟩ := h _ (getD_mem hi1 none)
    obtain ⟨b, hb⟩ := h _ (getD_mem hi2 none)
    rw [ha, hb]
    exact ⟨(a + b) / 2, rfl⟩
  · have hi : s.length / 2 < s.length := by omega
    obtain ⟨a, ha⟩ := h _ (getD_mem hi none)
    rw [ha]
    exact ⟨a, rfl⟩

theorem reduceMax_eq_none {α : Type} {l : List (α × ℕ)} :
    reduceMax l = none ↔ l = [] := by
  cases l <;> simp [reduceMax]

theorem foldl_pick_mem {α : Type} (t : List (α × ℕ)) (a : α × ℕ) :
    t.foldl (fun x b => if x.2 > b.2 then x else b) a = a ∨
      t.foldl (fun x b => if x.2 > b.2 then x else b) a ∈ t := by
  induction t generalizing a with
  | nil => exact Or.inl rfl
  | cons b t ih =>
    rw [List.foldl_cons]
    rcases ih (if a.2 > b.2 then a else b) with h | h
    · rw [h]
      split_ifs
      · exact Or.inl rfl
      · exact Or.inr (List.mem_cons_self ..)
    · exact Or.inr (List.mem_cons_of_mem _ h)

theorem reduceMax_mem {α : Type} {l : List (α × ℕ)} {p : α × ℕ}
    (h : reduceMax l = some p) : p ∈ l := by
  cases l with
  | nil => cases h
  | cons a t =>
    have heq : t.foldl (fun x b => if x.2 > b.2 then x else b) a = p :=
      Option.some_injective _ h
    rcases foldl_pick_mem t a with h1 | h1
    · rw [heq] at h1
      rw [← h1]
      exact List.mem_cons_self ..
    · rw [heq] at h1
      exact List.mem_cons_of_mem _ h1

theorem upsert_key_sub {α : Type} [DecidableEq α] (acc : List (α × ℕ)) (k : α) :
    ∀ p ∈ upsert acc k, p.1 = k ∨ p.1 ∈ acc.map Prod.fst := by
  induction acc with
  | nil =>
    intro p hp
    rcases List.mem_singleton.mp hp with rfl
    exact Or.inl rfl
  | cons e t ih =>
    obtain ⟨a, n⟩ := e
    intro p hp
    by_cases he : a = k
    · rw [show upsert ((a, n) :: t) k = (a, n + 1) :: t from by unfold upsert; rw [if_pos he]]
        at hp
      rcases List.mem_cons.mp hp with rfl | hp2
      · exact Or.inl he
      · exact Or.inr (by
          rw [List.map_cons]
          exact List.mem_cons_of_mem _ (List.mem_map_of_mem Prod.fst hp2))
    · rw [show upsert ((a, n) :: t) k = (a, n) :: upsert t k from by
          simp only [upsert, if_neg he]] at hp
      rcases List.mem_cons.mp hp with rfl | hp2
      · exact Or.inr (by rw [List.map_cons]; exact List.mem_cons_self ..)
      · rcases ih p hp2 with h1 | h1
        · exact Or.inl h1
        · exact Or.inr (by rw [List.map_cons]; exact List.mem_cons_of_mem _ h1)

theorem freqList_key_sub {α : Type} [DecidableEq α] (l : List α) :
    ∀ p ∈ freqList l, p.1 ∈ l := by
  have main : ∀ (l2 : List α) (acc : List (α × ℕ)) (p : α × ℕ), p ∈ l2.foldl upsert acc →
      p.1 ∈ l2 ∨ p.1 ∈ acc.map Prod.fst := by
    intro l2
    induction l2 with
    | nil =>
      intro acc p hp
      exact Or.inr (List.mem_map_of_mem Prod.fst hp)
    | cons x t ih =>
      intro acc p hp
      rw [List.foldl_cons] at hp
      rcases ih (upsert acc x) p hp with h1 | h1
      · exact Or.inl (List.mem_cons_of_mem _ h1)
      · rcases List.mem_map.mp h1 with ⟨q, hq, hq1⟩
        rcases upsert_key_sub acc x q hq with h2 | h2
        · refine Or.inl ?_
          rw [← hq1, h2]
          exact List.mem_cons_self ..
        · exact Or.inr (hq1 ▸ h2)
  intro p hp
  rcases main l [] p hp with h | h
  · exact h
  · simp at h

theorem upsert_ne_nil_gen {α : Type} [DecidableEq α] (acc : List (α × ℕ)) (k : α) :
    upsert acc k ≠ [] := by
  cases acc with
  | nil => simp [upsert]
  | cons e t =>
    obtain ⟨a, n⟩ := e
    unfold upsert
    split_ifs <;> simp

theorem freqList_ne_nil_gen {α : Type} [DecidableEq α] {l : List α} (h : l ≠ []) :
    freqList l ≠ [] := by
  unfold freqList
  cases l with
  | nil => exact absurd rfl h
  | cons x t =>
    rw [List.foldl_cons]
    have main : ∀ (t2 : List α) (acc : List (α × ℕ)), acc ≠ [] → t2.foldl upsert acc ≠ [] := by
      intro t2
      induction t2 with
      | nil =>
        intro acc h2
        simpa using h2
      | cons y s ih =>
        intro acc h2
        rw [List.foldl_cons]
        exact ih _ (upsert_ne_nil_gen acc y)
    exact main t _ (upsert_ne_nil_gen [] x)

/-- The constant `imputeMissingValues` fills the missing cells with (the
`imputedValue` switch of fileProcessor.ts:325-357), factored out of the
non-empty branch. -/
def imputedValueOf (values : List Cell) (columnType : String) : Cell × String :=
  let nonMissingValues := values.filter (fun v => !isMissing v)
  match columnType with
  | "numerical" =>
    let sortedValues := sortBy leJs (nonMissingValues.map jsToNum)
    (Cell.num (medianJsOfSorted sortedValues), "median")
  | "categorical" =>
    (((reduceMax (freqList nonMissingValues)).map Prod.fst).getD Cell.null, "mode")
  | "date" =>
    (Cell.str (((reduceMax (freqList (nonMissingValues.map jsToString))).map Prod.fst).getD ""),
     "most_frequent_date")
  | _ =>
    (Cell.str (((reduceMax (freqList (nonMissingValues.map jsToString))).map Prod.fst).getD ""),
     "most_frequent_text")

theorem impute_count_all_missing (values : List Cell) (ty : String)
    (h : ∀ v ∈ values, isMissing v = true) :
    (imputeMissingValues values ty).2.1 = 0 := by
  have hnil : values.filter (fun v => !isMissing v) = [] := by
    rw [List.filter_eq_nil_iff]
    intro v hv
    simp [h v hv]
  unfold imputeMissingValues
  dsimp only
  rw [if_pos (by simp [List.isEmpty_iff, hnil])]

theorem impute_count_no_missing (values : List Cell) (ty : String)
    (h : ∀ v ∈ values, isMissing v = false) :
    (imputeMissingValues values ty).2.1 = 0 := by
  unfold imputeMissingValues
  dsimp only
  split_ifs with hc
  · rfl
  · show values.countP isMissing = 0
    rw [List.countP_eq_zero]
    intro v hv
    simp [h v hv]

theorem impute_values_all_missing (values : List Cell) (ty : String)
    (h : ∀ v ∈ values, isMissing v = true) :
    (imputeMissingValues values ty).1 = values := by
  have hnil : values.filter (fun v => !isMissing v) = [] := by
    rw [List.filter_eq_nil_iff]
    intro v hv
    simp [h v hv]
  unfold imputeMissingValues
  dsimp only
  rw [if_pos (by simp [List.isEmpty_iff, hnil])]

theorem impute_values_of_ne (values : List Cell) (ty : String)
    (hnil : values.filter (fun v => !isMissing v) ≠ []) :
    (imputeMissingValues values ty).1 =
      values.map (fun v => if isMissing v then (imputedValueOf values ty).1 else v) := by
  unfold imputeMissingValues imputedValueOf
  dsimp only
  rw [if_neg (by simp [List.isEmpty_iff, hnil])]

theorem impute_stable (g : Cell → Prop) (ty : String) (values : List Cell)
    (hmix : MixedCol g values)
    (hp : values.filter (fun v => !isMissing v) ≠ [] →
      isMissing (imputedValueOf values ty).1 = false ∧ g (imputedValueOf values ty).1) :
    StableCol g (imputeMissingValues values ty).1 := by
  by_cases hnil : values.filter (fun v => !isMissing v) = []
  · have hall : ∀ v ∈ values, isMissing v = true := by
      intro v hv
      by_contra hc
      have hm : v ∈ values.filter (fun v => !isMissing v) :=
        List.mem_filter.mpr ⟨hv, by simpa using hc⟩
      rw [hnil] at hm
      exact absurd hm (List.not_mem_nil v)
    rw [impute_values_all_missing values ty hall]
    exact Or.inl hall
  · obtain ⟨hpm, hpg⟩ := hp hnil
    rw [impute_values_of_ne values ty hnil]
    refine Or.inr ?_
    intro v hv
    rcases List.mem_map.mp hv with ⟨w, hw, rfl⟩
    by_cases hwm : isMissing w = true
    · rw [if_pos hwm]
      exact ⟨hpm, hpg⟩
    · rw [Bool.not_eq_true] at hwm
      rw [if_neg (by simp [hwm])]
      rcases hmix w hw with h1 | h1
      · rw [hwm] at h1
        cases h1
      · exact h1

theorem imputedValue_num (values : List Cell)
    (hmix : MixedCol numVal values)
    (hne : values.filter (fun v => !isMissing v) ≠ []) :
    isMissing (imputedValueOf values "numerical").1 = false ∧
      numVal (imputedValueOf values "numerical").1 := by
  have heq : imputedValueOf values "numerical" =
      (Cell.num (medianJsOfSorted (sortBy leJs
        ((values.filter (fun v => !isMissing v)).map jsToNum))), "median") := rfl
  rw [heq]
  refine ⟨rfl, ?_⟩
  have hs_ne : sortBy leJs ((values.filter (fun v => !isMissing v)).map jsToNum) ≠ [] := by
    intro hcon
    apply hne
    have hlen := congrArg List.length hcon
    rw [length_sortBy] at hlen
    simpa using hlen
  have hall : ∀ x ∈ sortBy leJs ((values.filter (fun v => !isMissing v)).map jsToNum),
      ∃ q : ℚ, x = some q := by
    intro x hx
    have hx2 : x ∈ (values.filter (fun v => !isMissing v)).map jsToNum := mem_sortBy.mp hx
    rcases List.mem_map.mp hx2 with ⟨v, hv, rfl⟩
    have hvf := List.mem_filter.mp hv
    have hvm : isMissing v = false := by simpa using hvf.2
    rcases hmix v hvf.1 with h1 | h1
    · rw [hvm] at h1
      cases h1
    · obtain ⟨q, rfl⟩ := h1.2
      exact ⟨q, rfl⟩
  obtain ⟨q, hq⟩ := medianJs_some hs_ne hall
  exact ⟨q, by rw [hq]⟩

theorem imputedValue_date (values : List Cell)
    (hmix : MixedCol isoVal values)
    (hne : values.filter (fun v => !isMissing v) ≠ []) :
    isMissing (imputedValueOf values "date").1 = false ∧
      isoVal (imputedValueOf values "date").1 := by
  have heq : imputedValueOf values "date" =
      (Cell.str (((reduceMax (freqList
        ((values.filter (fun v => !isMissing v)).map jsToString))).map Prod.fst).getD ""),
       "most_frequent_date") := rfl
  rw [heq]
  have hmne : (values.filter (fun v => !isMissing v)).map jsToString ≠ [] := by
    simpa using hne
  have hfne : freqList ((values.filter (fun v => !isMissing v)).map jsToString) ≠ [] :=
    freqList_ne_nil_gen hmne
  cases hr : reduceMax (freqList ((values.filter (fun v => !isMissing v)).map jsToString)) with
  | none => exact absurd (reduceMax_eq_none.mp hr) hfne
  | some p =>
    have hp1 : p.1 ∈ (values.filter (fun v => !isMissing v)).map jsToString :=
      freqList_key_sub _ p (reduceMax_mem hr)
    rcases List.mem_map.mp hp1 with ⟨v, hv, hkey⟩
    have hvf := List.mem_filter.mp hv
    have hvm : isMissing v = false := by simpa using hvf.2
    have hvg : isoVal v := by
      rcases hmix v hvf.1 with h1 | h1
      · rw [hvm] at h1
        cases h1
      · exact h1.2
    obtain ⟨s, rfl, hiso⟩ := hvg
    show isMissing (Cell.str p.1) = false ∧ isoVal (Cell.str p.1)
    rw [← hkey]
    exact ⟨iso_not_missing hiso, s, rfl, hiso⟩

theorem imputedValue_keep (values : List Cell) (ty : String)
    (hmix : MixedCol cleanVal values)
    (hne : values.filter (fun v => !isMissing v) ≠ []) :
    isMissing (imputedValueOf values ty).1 = false ∧
      cleanVal (imputedValueOf values ty).1 := by
  have hstr : isMissing (Cell.str (((reduceMax (freqList
        ((values.filter (fun v => !isMissing v)).map jsToString))).map Prod.fst).getD ""))
          = false ∧
      cleanVal (Cell.str (((reduceMax (freqList
        ((values.filter (fun v => !isMissing v)).map jsToString))).map Prod.fst).getD "")) := by
    have hmne : (values.filter (fun v => !isMissing v)).map jsToString ≠ [] := by
      simpa using hne
    have hfne : freqList ((values.filter (fun v => !isMissing v)).map jsToString) ≠ [] :=
      freqList_ne_nil_gen hmne
    cases hr : reduceMax (freqList ((values.filter (fun v => !isMissing v)).map jsToString)) with
    | none => exact absurd (reduceMax_eq_none.mp hr) hfne
    | some p =>
      have hp1 : p.1 ∈ (values.filter (fun v => !isMissing v)).map jsToString :=
        freqList_key_sub _ p (reduceMax_mem hr)
      rcases List.mem_map.mp hp1 with ⟨v, hv, hkey⟩
      have hvf := List.mem_filter.mp hv
      have hvm : isMissing v = false := by simpa using hvf.2
      have hvg : cleanVal v := by
        rcases hmix v hvf.1 with h1 | h1
        · rw [hvm] at h1
          cases h1
        · exact h1.2
      show isMissing (Cell.str p.1) = false ∧ cleanVal (Cell.str p.1)
      rw [← hkey]
      refine ⟨isMissing_str_jsToString hvm, ?_⟩
      show sentinelCheck (Cell.str (jsToString v)) = false
      rw [sentinelCheck_str_jsToString]
      exact hvg
  unfold imputedValueOf
  dsimp only
  split
  · exact ⟨rfl, sentinelCheck_num _⟩
  · have hfne : freqList (values.filter (fun v => !isMissing v)) ≠ [] :=
      freqList_ne_nil_gen hne
    cases hr : reduceMax (freqList (values.filter (fun v => !isMissing v))) with
    | none => exact absurd (reduceMax_eq_none.mp hr) hfne
    | some p =>
      have hp1 : p.1 ∈ values.filter (fun v => !isMissing v) :=
        freqList_key_sub _ p (reduceMax_mem hr)
      have hvf := List.mem_filter.mp hp1
      have hvm : isMissing p.1 = false := by simpa using hvf.2
      have hvg : cleanVal p.1 := by
        rcases hmix p.1 hvf.1 with h1 | h1
        · rw [hvm] at h1
          cases h1
        · exact h1.2
      exact ⟨hvm, hvg⟩
  · exact hstr
  · exact hstr

theorem cleanColumn_stable (col : DataColumn) (n : ℕ) :
    (cleanColumn col n).1.name = col.name ∧
    (cleanColumn col n).1.type = finalTypeOf (routeOf col.name col.type) col.type ∧
    StableCol (GoodVal (routeOf col.name col.type)) (cleanColumn col n).1.values := by
  have hconv := convertTypes_eq_route (fixErroneousValues col.values col.type).1 col
  refine ⟨rfl, ?_, ?_⟩ <;> cases hr : routeOf col.name col.type <;> rw [hr] at hconv
  · show (if (convertTypes (fixErroneousValues col.values col.type).1 col).2.2
        then (convertTypes (fixErroneousValues col.values col.type).1 col).2.1
        else col.type) = _
    rw [hconv]
    rfl
  · show (if (convertTypes (fixErroneousValues col.values col.type).1 col).2.2
        then (convertTypes (fixErroneousValues col.values col.type).1 col).2.1
        else col.type) = _
    rw [hconv]
    rfl
  · show (if (convertTypes (fixErroneousValues col.values col.type).1 col).2.2
        then (convertTypes (fixErroneousValues col.values col.type).1 col).2.1
        else col.type) = _
    rw [hconv]
    rfl
  · show (if (convertTypes (fixErroneousValues col.values col.type).1 col).2.2
        then (convertTypes (fixErroneousValues col.values col.type).1 col).2.1
        else col.type) = _
    rw [hconv]
    rfl
  · have hval : (cleanColumn col n).1.values =
        (imputeMissingValues ((fixErroneousValues col.values col.type).1.map convertFloatVal)
          "numerical").1 := by
      unfold cleanColumn
      dsimp only
      rw [hconv]
      rfl
    rw [hval]
    have hmix : MixedCol numVal
        ((fixErroneousValues col.values col.type).1.map convertFloatVal) := by
      intro v hv
      rcases List.mem_map.mp hv with ⟨w, hw, rfl⟩
      exact convertFloatVal_mixed w
    exact impute_stable numVal "numerical" _ hmix (fun hne => imputedValue_num _ hmix hne)
  · have hval : (cleanColumn col n).1.values =
        (imputeMissingValues ((fixErroneousValues col.values col.type).1.map convertIntVal)
          "numerical").1 := by
      unfold cleanColumn
      dsimp only
      rw [hconv]
      rfl
    rw [hval]
    have hmix : MixedCol numVal
        ((fixErroneousValues col.values col.type).1.map convertIntVal) := by
      intro v hv
      rcases List.mem_map.mp hv with ⟨w, hw, rfl⟩
      exact convertIntVal_mixed w
    exact impute_stable numVal "numerical" _ hmix (fun hne => imputedValue_num _ hmix hne)
  · have hval : (cleanColumn col n).1.values =
        (imputeMissingValues ((fixErroneousValues col.values col.type).1.map convertDateVal)
          "date").1 := by
      unfold cleanColumn
      dsimp only
      rw [hconv]
      rfl
    rw [hval]
    have hmix : MixedCol isoVal
        ((fixErroneousValues col.values col.type).1.map convertDateVal) := by
      intro v hv
      rcases List.mem_map.mp hv with ⟨w, hw, rfl⟩
      exact convertDateVal_mixed w
    exact impute_stable isoVal "date" _ hmix (fun hne => imputedValue_date _ hmix hne)
  · have hval : (cleanColumn col n).1.values =
        (imputeMissingValues (fixErroneousValues col.values col.type).1 col.type).1 := by
      unfold cleanColumn
      dsimp only
      rw [hconv]
      rfl
    rw [hval]
    have hmix : MixedCol cleanVal (fixErroneousValues col.values col.type).1 := by
      intro v hv
      unfold fixErroneousValues at hv
      dsimp only at hv
      rcases List.mem_map.mp hv with ⟨pw, hpw, rfl⟩
      rcases List.mem_map.mp hpw with ⟨w, hw, rfl⟩
      exact fixValue_fst_mixed _ _ w
    exact impute_stable cleanVal col.type _ hmix
      (fun hne => imputedValue_keep _ col.type hmix hne)

theorem fixValue_missing (flipOk : Bool) (ty : String) {v : Cell} (h : isMissing v = true) :
    (fixValue flipOk ty v).1 = v := by
  unfold fixValue
  rw [if_pos h]

theorem convertFloatVal_missing {v : Cell} (h : isMissing v = true) : convertFloatVal v = v := by
  unfold convertFloatVal
  rw [if_pos h]

theorem convertIntVal_missing {v : Cell} (h : isMissing v = true) : convertIntVal v = v := by
  unfold convertIntVal
  rw [if_pos h]

theorem convertDateVal_missing {v : Cell} (h : isMissing v = true) : convertDateVal v = v := by
  unfold convertDateVal
  rw [if_pos h]

theorem convertFloatVal_numVal {v : Cell} (h : numVal v) : convertFloatVal v = v := by
  obtain ⟨q, rfl⟩ := h
  unfold convertFloatVal
  rw [if_neg (by simp [isMissing])]

theorem convertIntVal_numVal {v : Cell} (h : numVal v) : numVal (convertIntVal v) := by
  obtain ⟨q, rfl⟩ := h
  unfold convertIntVal
  rw [if_neg (by simp [isMissing])]
  exact ⟨((ratTrunc q : ℤ) : ℚ), rfl⟩

theorem convertDateVal_isoVal {v : Cell} (h : isoVal v) : convertDateVal v = v := by
  obtain ⟨s, rfl, hiso⟩ := h
  unfold convertDateVal
  rw [if_neg (by simp [iso_not_missing hiso])]
  dsimp only
  rw [if_pos hiso]

theorem fixErroneousValues_missing_inv (values : List Cell) (ty : String)
    (h : ∀ v ∈ values, isMissing v = true) :
    ∀ w ∈ (fixErroneousValues values ty).1, isMissing w = true := by
  intro w hw
  unfold fixErroneousValues at hw
  dsimp only at hw
  rcases List.mem_map.mp hw with ⟨pw, hpw, rfl⟩
  rcases List.mem_map.mp hpw with ⟨v, hv, rfl⟩
  rw [fixValue_missing _ _ (h v hv)]
  exact h v hv

theorem convertTypes_missing_inv (values : List Cell) (col : DataColumn)
    (h : ∀ v ∈ values, isMissing v = true) :
    ∀ w ∈ (convertTypes values col).1, isMissing w = true := by
  unfold convertTypes
  dsimp only
  split_ifs <;> intro w hw
  · rcases List.mem_map.mp hw with ⟨v, hv, rfl⟩
    rw [convertFloatVal_missing (h v hv)]
    exact h v hv
  · rcases List.mem_map.mp hw with ⟨v, hv, rfl⟩
    rw [convertIntVal_missing (h v hv)]
    exact h v hv
  · rcases List.mem_map.mp hw with ⟨v, hv, rfl⟩
    rw [convertDateVal_missing (h v hv)]
    exact h v hv
  · exact h w hw

theorem fixed_numVal_inv (values : List Cell) (ty : String)
    (h : ∀ v ∈ values, isMissing v = false ∧ numVal v) :
    ∀ w ∈ (fixErroneousValues values ty).1, isMissing w = false ∧ numVal w := by
  intro w hw
  unfold fixErroneousValues at hw
  dsimp only at hw
  rcases List.mem_map.mp hw with ⟨pw, hpw, rfl⟩
  rcases List.mem_map.mp hpw with ⟨v, hv, rfl⟩
  exact fixValue_numVal _ _ (h v hv).2

theorem fixed_isoVal_inv (values : List Cell)
    (h : ∀ v ∈ values, isMissing v = false ∧ isoVal v) :
    ∀ w ∈ (fixErroneousValues values "date").1, isMissing w = false ∧ isoVal w := by
  intro w hw
  unfold fixErroneousValues at hw
  dsimp only at hw
  rcases List.mem_map.mp hw with ⟨pw, hpw, rfl⟩
  rcases List.mem_map.mp hpw with ⟨v, hv, rfl⟩
  rw [fixValue_isoVal _ (h v hv).2]
  exact h v hv

theorem fixed_nonmissing_inv (values : List Cell) (ty : String)
    (h : ∀ v ∈ values, isMissing v = false ∧ cleanVal v) :
    ∀ w ∈ (fixErroneousValues values ty).1, isMissing w = false := by
  intro w hw
  unfold fixErroneousValues at hw
  dsimp only at hw
  rcases List.mem_map.mp hw with ⟨pw, hpw, rfl⟩
  rcases List.mem_map.mp hpw with ⟨v, hv, rfl⟩
  exact fixValue_nonmissing _ _ (h v hv).1 (h v hv).2

theorem cleanColumn_count_zero (col : DataColumn) (n : ℕ) (r : Route)
    (hr : routeOf col.name col.type = r)
    (hdty : r = Route.date → col.type = "date")
    (hstable : StableCol (GoodVal r) col.values) :
    (cleanColumn col n).2.missingValuesImputed = 0 := by
  have hconv := convertTypes_eq_route (fixErroneousValues col.values col.type).1 col
  rw [hr] at hconv
  have hcount : (cleanColumn col n).2.missingValuesImputed =
      (imputeMissingValues (convertTypes (fixErroneousValues col.values col.type).1 col).1
        (if (convertTypes (fixErroneousValues col.values col.type).1 col).2.2
         then (convertTypes (fixErroneousValues col.values col.type).1 col).2.1
         else col.type)).2.1 := rfl
  rw [hcount]
  rcases hstable with hall | hgood
  · apply impute_count_all_missing
    apply convertTypes_missing_inv
    exact fixErroneousValues_missing_inv col.values col.type hall
  · apply impute_count_no_missing
    cases r with
    | price =>
      rw [hconv]
      intro w hw
      rcases List.mem_map.mp hw with ⟨u, hu, rfl⟩
      have hu2 := fixed_numVal_inv col.values col.type hgood u hu
      rw [convertFloatVal_numVal hu2.2]
      exact hu2.1
    | qty =>
      rw [hconv]
      intro w hw
      rcases List.mem_map.mp hw with ⟨u, hu, rfl⟩
      have hu2 := fixed_numVal_inv col.values col.type hgood u hu
      obtain ⟨q2, heq⟩ := convertIntVal_numVal hu2.2
      rw [heq]
      rfl
    | date =>
      have hty := hdty rfl
      rw [hconv, hty]
      intro w hw
      rcases List.mem_map.mp hw with ⟨u, hu, rfl⟩
      have hu2 := fixed_isoVal_inv col.values hgood u hu
      rw [convertDateVal_isoVal hu2.2]
      exact hu2.1
    | keep =>
      rw [hconv]
      intro w hw
      exact fixed_nonmissing_inv col.values col.type hgood w hw

theorem foldl_set_bool (l : List ℕ) (g : ℕ → Bool) (fl : List Cell)
    (h : ∀ v ∈ fl, ∃ b, v = Cell.bool b) :
    ∀ v ∈ l.foldl (fun fl i => if g i then fl.set i (Cell.bool true) else fl) fl,
      ∃ b, v = Cell.bool b := by
  induction l generalizing fl with
  | nil => exact h
  | cons i t ih =>
    rw [List.foldl_cons]
    apply ih
    split_ifs
    · intro v hv
      rcases List.mem_or_eq_of_mem_set hv with h1 | h1
      · exact h v h1
      · exact ⟨true, h1⟩
    · exact h

theorem markRow_bool (flags cleaned orig : List Cell)
    (h : ∀ v ∈ flags, ∃ b, v = Cell.bool b) :
    ∀ v ∈ markRow flags cleaned orig, ∃ b, v = Cell.bool b := by
  unfold markRow
  exact foldl_set_bool _ _ flags h

theorem flagValues_bool (ps : List (List Cell × List Cell)) (fl : List Cell)
    (h : ∀ v ∈ fl, ∃ b, v = Cell.bool b) :
    ∀ v ∈ ps.foldl (fun fl p => markRow fl p.1 p.2) fl, ∃ b, v = Cell.bool b := by
  induction ps generalizing fl with
  | nil => exact h
  | cons p t ih =>
    rw [List.foldl_cons]
    exact ih _ (markRow_bool _ _ _ h)

theorem flagColumnOf_bool (t : DataSummary) :
    ∀ v ∈ (flagColumnOf t).values, ∃ b, v = Cell.bool b := by
  show ∀ v ∈ ((((t.columns.map (fun c => cleanColumn c t.totalRows)).map Prod.fst).map
      DataColumn.values).zip (t.columns.map DataColumn.values)).foldl
      (fun fl p => markRow fl p.1 p.2) (List.replicate t.totalRows (Cell.bool false)), _
  apply flagValues_bool
  intro v hv
  exact ⟨false, List.eq_of_mem_replicate hv⟩

theorem routeOf_flag : routeOf "nettoyage_effectue" "categorical" = Route.keep := by decide

/-- C8: a second cleaning pass imputes no values — for every table `t`,
the report of `cleanData` applied to the cleaned table of `cleanData t`
has `summary.missingValuesImputed = 0`. After one pass every column is
either entirely missing (left untouched again) or entirely non-missing
with values that the second pass's fix/convert steps keep non-missing, and
the appended flag column is boolean, so no second-pass imputation
occurs. -/
theorem c8_second_pass_imputes_nothing (t : DataSummary) :
    (cleanData (cleanData t).1).2.summary.missingValuesImputed = 0 := by
  have hsum : ∀ s : DataSummary, (cleanData s).2.summary.missingValuesImputed =
      (((s.columns.map (fun c => cleanColumn c s.totalRows)).map Prod.snd).map
        ColumnCleaningReport.missingValuesImputed).sum := fun s => rfl
  rw [hsum]
  apply List.sum_eq_zero
  intro x hx
  rcases List.mem_map.mp hx with ⟨rep, hrep, rfl⟩
  rcases List.mem_map.mp hrep with ⟨pr, hpr, rfl⟩
  rcases List.mem_map.mp hpr with ⟨col, hcol, rfl⟩
  show (cleanColumn col (cleanData t).1.totalRows).2.missingValuesImputed = 0
  rw [cleanData_columns t] at hcol
  rcases List.mem_append.mp hcol with hmem | hmem
  · rcases List.mem_map.mp hmem with ⟨pr0, hpr0, rfl⟩
    rcases List.mem_map.mp hpr0 with ⟨c0, hc0, rfl⟩
    obtain ⟨hname, htype, hstable⟩ := cleanColumn_stable c0 t.totalRows
    apply cleanColumn_count_zero _ _ (routeOf c0.name c0.type)
    · rw [hname, htype]
      exact routeOf_finalType c0.name c0.type
    · intro hdate
      rw [htype, hdate]
      rfl
    · exact hstable
  · rcases List.mem_singleton.mp hmem with rfl
    apply cleanColumn_count_zero _ _ Route.keep
    · exact routeOf_flag
    · intro h
      exact absurd h (by decide)
    · refine Or.inr ?_
      intro v hv
      obtain ⟨b, rfl⟩ := flagColumnOf_bool t v hv
      exact ⟨rfl, sentinelCheck_bool b⟩
